import Mathlib

/-!
Verification development for the `find-all-js-imports` library.

The JavaScript source is shallowly embedded:
* JS dynamic values appearing at the public boundary are modelled by `JSVal`;
  `typeof` / `instanceof Set` checks become matches on its constructors.
* The external collaborators (filesystem existence check, source parser,
  path resolver, `path.dirname`) are abstracted into a `World` record, as the
  specification treats them as external capabilities.
* The shared mutable visited `Set` is modelled by explicit state passing: every
  engine function returns the state of the caller's set alongside the result
  object.  JS `Set` iteration/insertion order is preserved by using a list that
  is only appended to when the element is absent (the semantics of `Set.add`).
* The recursion of `findAllImports` is bounded by the code's own depth budget:
  each descent increments `depth` and validation rejects `depth > maxDepth`.
  The embedding makes that bound explicit as a structural `fuel` argument
  computed from `maxDepth - depth`; the zero-fuel branch is unreachable from
  the public entry points (each recursive descent consumes exactly one unit of
  the budget the validator enforces).
-/

/-- Model of a JS dynamic value as it can appear in the public inputs of the
library: strings, numbers, `Set` objects (with arbitrary element values),
and a catch-all for every other value (`undefined`, `null`, booleans,
plain objects, arrays, functions). -/
inductive JSVal where
  | str (s : String)
  | num (n : Int)
  | set (elems : List JSVal)
  | other

/-- Model of `typeof v === "string"`. -/
def JSVal.isString : JSVal → Bool
  | .str _ => true
  | _ => false

/-- Model of `typeof v === "number"`. -/
def JSVal.isNumber : JSVal → Bool
  | .num _ => true
  | _ => false

/-- Model of `v instanceof Set`. -/
def JSVal.isSet : JSVal → Bool
  | .set _ => true
  | _ => false

/-- Numeric content of a JS value (meaningful after the `typeof === "number"`
check has passed). -/
def JSVal.asInt : JSVal → Int
  | .num n => n
  | _ => 0

/-- String elements of a JS `Set` value, in insertion order (meaningful after
validation has established the set contains only strings). -/
def setStrings : JSVal → List String
  | .set es => es.filterMap (fun v => match v with | .str s => some s | _ => none)
  | _ => []

/-- Model of an argument node of a call expression (`arguments[i]`), carrying
its `type` tag and its `value` (meaningful for `Literal` nodes). -/
structure ESArg where
  type : String
  value : String
  deriving DecidableEq, Repr

/-- Model of the expression carried by an `ExpressionStatement`: its `type`,
its `callee.name` when the callee has a name, and its argument list. -/
structure ESExpr where
  type : String
  calleeName : Option String
  args : List ESArg
  deriving DecidableEq, Repr

/-- Model of a top-level AST statement node, restricted to the fields the
library reads: `type`, `source.value` (present on import nodes) and
`expression` (present on expression statements). -/
structure ESNode where
  type : String
  sourceValue : Option String
  expression : Option ESExpr
  deriving DecidableEq, Repr

/-- Model of the `ast` object of an ESLint `SourceCode`: its top-level
statement list `body`. -/
structure AST where
  body : List ESNode
  deriving DecidableEq, Repr

/-- Model of an ESLint `SourceCode` object as consumed by the library: only
its (possibly absent) `ast` is read. -/
structure SourceCode where
  ast : Option AST
  deriving DecidableEq, Repr

/-- Top-level statement list of a `SourceCode` whose `ast` presence has been
validated (`sourceCode.ast.body`). -/
def astBody (sc : SourceCode) : List ESNode :=
  (sc.ast.getD ⟨[]⟩).body

/-- The external collaborators of the traversal engine, abstracted per the
specification: filesystem existence check (`fs.existsSync`), source parser
(`getSourceCodeFromFilePath`), path resolver (`resolveImportingPath`) and
`path.dirname`.  The two parser-level absence signals (`null` source code and
missing `ast`) are both representable. -/
structure World where
  existsSync : String → Bool
  getSourceCodeFromFilePath : String → Option SourceCode
  resolveImportingPath : String → String → String → Option String
  dirname : String → String

/-- Model of an element of the `errors` array of a failure object: the spread
`typeError` constant contributes `type := "error"` and each site supplies a
`message`. -/
structure ErrObj where
  type : String
  message : String
  deriving DecidableEq, Repr

/-- `makeSuccessFalseTypeError`: builds the `errors` list of a failure object
from a single message (the enclosing `success: false` is carried by the
result constructors below). -/
def makeSuccessFalseTypeError (message : String) : List ErrObj :=
  [⟨"error", message⟩]

/-- `makeIsSupposedToBe`: formats the rough-validation error text. -/
def makeIsSupposedToBe (paramName paramKind : String) : String :=
  paramName ++ " is supposed to be " ++ paramKind ++ "."

/-- The options object taken by the three entry points, before validation:
each field is still a dynamic JS value. -/
structure FindAllImportsOptions where
  cwd : JSVal
  visitedSet : JSVal
  depth : JSVal
  maxDepth : JSVal

/-- The default options of the entry points (`cwd = process.cwd()`,
`visitedSet = new Set()`, `depth = 0`, `maxDepth = 100`), parameterized by the
ambient working directory string. -/
def defaultFindAllImportsOptions (cwd : String) : FindAllImportsOptions :=
  ⟨.str cwd, .set [], .num 0, .num 100⟩

/-- Well-typed options: a string `cwd`, a set of strings `visitedSet`, and
numeric `depth`/`maxDepth`.  Abbreviation used throughout the theorems. -/
def tOpts (cwd : String) (vs : List String) (d M : Int) : FindAllImportsOptions :=
  ⟨.str cwd, .set (vs.map .str), .num d, .num M⟩

/-- Result of `validateFilePathAndOptions`: either the failure object's
`errors`, or the validated typed fields together with the parsed
`sourceCode`. -/
inductive VRes where
  | invalid (errors : List ErrObj)
  | valid (filePath cwd : String) (visitedSet : List String) (depth maxDepth : Int)
      (sourceCode : SourceCode)
  deriving DecidableEq, Repr

/-- Message of the zod wrapper error. -/
def zodMsg : String := "ERROR. Config data could not pass validation from zod."

/-- Message of a zod issue for a non-string element of `visitedSet`. -/
def zodIssueMsg : String := "All values within visitedSet should be strings."

/-- Message of the depth-budget rejection. -/
def maxDepthMsg (maxDepth : Int) (filePath : String) : String :=
  "ERROR. Max depth " ++ (toString maxDepth ++ (" reached at " ++ (filePath ++ ".")))

/-- Message of the filesystem-existence rejection. -/
def fileNotFoundMsg (filePath : String) : String :=
  "ERROR. File not found at " ++ (filePath ++ ".")

/-- Message of the parser-absence rejection. -/
def parseFailMsg (filePath : String) : String :=
  "ERROR. Failed to parse AST for " ++ (filePath ++ " somehow.")

/-- Message of a caught callback exception (`${e}` is the thrown value's
string rendering). -/
def callbackErrMsg (filePath e : String) : String :=
  "ERROR. Callback error in " ++ (filePath ++ (". \nError: \n" ++ e))

/-- `validateFilePathAndOptions`: rough type checks in source order
(filePath, cwd, visitedSet, depth, maxDepth), then the zod pass over the
visited set's elements, the depth budget, the filesystem check and the
parser, failing early at the first violation. -/
def validateFilePathAndOptions (W : World) (filePath : JSVal)
    (opts : FindAllImportsOptions) : VRes :=
  match filePath with
  | .str fp =>
    match opts.cwd with
    | .str cwd =>
      match opts.visitedSet with
      | .set elems =>
        match opts.depth with
        | .num depth =>
          match opts.maxDepth with
          | .num maxDepth =>
            match elems.filter (fun v => !v.isString) with
            | bad@(_ :: _) =>
              .invalid (⟨"error", zodMsg⟩ :: bad.map (fun _ => ⟨"error", zodIssueMsg⟩))
            | [] =>
            if depth > maxDepth then
              .invalid (makeSuccessFalseTypeError (maxDepthMsg maxDepth fp))
            else if !W.existsSync fp then
              .invalid (makeSuccessFalseTypeError (fileNotFoundMsg fp))
            else
              match W.getSourceCodeFromFilePath fp with
              | none => .invalid (makeSuccessFalseTypeError (parseFailMsg fp))
              | some sc =>
                match sc.ast with
                | none => .invalid (makeSuccessFalseTypeError (parseFailMsg fp))
                | some _ =>
                  .valid fp cwd
                    (elems.filterMap (fun v => match v with | .str s => some s | _ => none))
                    depth maxDepth sc
          | _ => .invalid
              (makeSuccessFalseTypeError ("ERROR. " ++ makeIsSupposedToBe "maxDepth" "a number"))
        | _ => .invalid
            (makeSuccessFalseTypeError ("ERROR. " ++ makeIsSupposedToBe "depth" "a number"))
      | _ => .invalid
          (makeSuccessFalseTypeError ("ERROR. " ++ makeIsSupposedToBe "visitedSet" "a Set"))
    | _ => .invalid
        (makeSuccessFalseTypeError ("ERROR. " ++ makeIsSupposedToBe "cwd" "a string"))
  | _ => .invalid
      (makeSuccessFalseTypeError ("ERROR. " ++ makeIsSupposedToBe "filePath" "a string"))

/-- `visitedSetHasPreviousVisit`: `visitedSet.has(filePath)`. -/
def visitedSetHasPreviousVisit (visitedSet : List String) (filePath : String) : Bool :=
  visitedSet.contains filePath

/-- `updateVisitedSet`: `visitedSet.add(filePath)` — a JS `Set` keeps the
first insertion and ignores re-additions. -/
def updateVisitedSet (visitedSet : List String) (filePath : String) : List String :=
  if visitedSet.contains filePath then visitedSet else visitedSet ++ [filePath]

/-- The joint settings of the conditional `processImport` calls
(`makeProcessImportSettings`): the containing directory of the current file,
the working directory and the depth budget.  The shared visited set is
threaded separately as explicit state. -/
structure ProcessImportSettings where
  currentDir : String
  cwd : String
  depth : Int
  maxDepth : Int
  deriving DecidableEq, Repr

/-- `makeProcessImportSettings`. -/
def makeProcessImportSettings (W : World) (filePath : String) (cwd : String)
    (depth maxDepth : Int) : ProcessImportSettings :=
  ⟨W.dirname filePath, cwd, depth, maxDepth⟩

/-- `makeFindAllImportsOptions`: the options of the next (recursive) round,
with `depth + 1`. -/
def makeFindAllImportsOptions (cwd : String) (visitedSet : List String)
    (depth maxDepth : Int) : FindAllImportsOptions :=
  ⟨.str cwd, .set (visitedSet.map .str), .num (depth + 1), .num maxDepth⟩

/-- `nodeIsImportDeclaration`: `node.type === "ImportDeclaration"`. -/
def nodeIsImportDeclaration (node : ESNode) : Bool :=
  node.type == "ImportDeclaration"

/-- `nodeIsImportExpression`: `node.type === "ImportExpression"`. -/
def nodeIsImportExpression (node : ESNode) : Bool :=
  node.type == "ImportExpression"

/-- `nodeIsRequireCall`: an `ExpressionStatement` whose expression is a
`CallExpression` with callee named `require` and a `Literal` first
argument. -/
def nodeIsRequireCall (node : ESNode) : Bool :=
  node.type == "ExpressionStatement" &&
    (match node.expression with
     | some e => e.type == "CallExpression" && e.calleeName == some "require" &&
         (match e.args.head? with
          | some a => a.type == "Literal"
          | none => false)
     | none => false)

/-- Specifier of an import node (`node.source.value`). -/
def nodeSourceValue (node : ESNode) : String :=
  node.sourceValue.getD ""

/-- Specifier of a require call (`node.expression.arguments[0].value`). -/
def nodeRequireArgValue (node : ESNode) : String :=
  match node.expression with
  | some e => match e.args.head? with
    | some a => a.value
    | none => ""
  | none => ""

/-- Result object of `findAllImports`: `{success: true, visitedSet}` or
`{success: false, errors}`. -/
inductive FOutcome where
  | success (visitedSet : List String)
  | failure (errors : List ErrObj)
  deriving DecidableEq, Repr

/-- A `findAllImports` call's observable effect: the returned result object
together with the state of the caller's shared visited set after the call
(the set is mutated in place in the source; the embedding returns it). -/
abbrev FRes := FOutcome × List String

/-- One `processImport` round: resolve the import path; skip silently (with a
success carrying the shared set) when the resolver yields nothing, otherwise
recurse through `recur` on the resolved path with the next round's options.
`recur` is instantiated with the (fuel-indexed) `findAllImports` engine. -/
def processImport (recur : JSVal → FindAllImportsOptions → FRes) (W : World)
    (importPath : String) (s : ProcessImportSettings) (visitedSet : List String) : FRes :=
  match W.resolveImportingPath s.currentDir importPath s.cwd with
  | none => (.success visitedSet, visitedSet)
  | some resolvedPath =>
      recur (.str resolvedPath)
        (makeFindAllImportsOptions s.cwd visitedSet s.depth s.maxDepth)

/-- Early-return sequencing of the statement loop: a failing result is
returned immediately (`if (!processImportResults.success) return
processImportResults`), a successful one hands the shared set's state to the
rest of the loop. -/
def resBind (r : FRes) (k : List String → FRes) : FRes :=
  match r with
  | (.failure e, st) => (.failure e, st)
  | (.success _, st) => k st

/-- The statement loop of `findAllImports`: for each top-level node, in source
order, the three classification branches run in sequence. -/
def scanStatements (recur : JSVal → FindAllImportsOptions → FRes) (W : World)
    (s : ProcessImportSettings) : List ESNode → List String → FRes
  | [], visitedSet => (.success visitedSet, visitedSet)
  | node :: rest, visitedSet =>
    resBind (if nodeIsImportDeclaration node then
               processImport recur W (nodeSourceValue node) s visitedSet
             else (.success visitedSet, visitedSet)) fun st1 =>
    resBind (if nodeIsImportExpression node then
               processImport recur W (nodeSourceValue node) s st1
             else (.success st1, st1)) fun st2 =>
    resBind (if nodeIsRequireCall node then
               processImport recur W (nodeRequireArgValue node) s st2
             else (.success st2, st2)) fun st3 =>
    scanStatements recur W s rest st3

/-- The fuel-indexed body of `findAllImports`: validate, short-circuit on a
previous visit, insert the file into the shared set, then scan the top-level
statements.  Each recursive descent runs with one unit of fuel less, exactly
mirroring the `depth + 1` budget the validator enforces; the zero-fuel value
is unreachable from `findAllImports` (see `findAllImportsGo_fuel`). -/
def findAllImportsGo : Nat → World → JSVal → FindAllImportsOptions → FRes
  | 0, _, _, opts => (.failure [], setStrings opts.visitedSet)
  | fuel + 1, W, filePath, opts =>
    match validateFilePathAndOptions W filePath opts with
    | .invalid errors => (.failure errors, setStrings opts.visitedSet)
    | .valid fp cwd _ depth maxDepth sourceCode =>
      let visitedSet := setStrings opts.visitedSet
      if visitedSetHasPreviousVisit visitedSet fp then
        (.success visitedSet, visitedSet)
      else
        let visitedSet1 := updateVisitedSet visitedSet fp
        scanStatements (fun fp1 opts1 => findAllImportsGo fuel W fp1 opts1) W
          (makeProcessImportSettings W fp cwd depth maxDepth)
          (astBody sourceCode) visitedSet1

/-- The fuel any call needs: one more than the remaining depth budget
`maxDepth - depth` (clamped at zero), itself one unit per possible descent. -/
def minFuel (opts : FindAllImportsOptions) : Nat :=
  (opts.maxDepth.asInt + 1 - opts.depth.asInt).toNat + 1

/-- `findAllImports`, the plain public entry point. -/
def findAllImports (W : World) (filePath : JSVal) (opts : FindAllImportsOptions) : FRes :=
  findAllImportsGo (minFuel opts) W filePath opts

/-- The shared mutable traversal state of the callback variants: the visited
set, the caller-owned accumulator and (as observable ghost state) the ordered
list of files the callback has been invoked on. -/
structure CState (A : Type) where
  visited : List String
  acc : A
  trace : List String
  deriving DecidableEq, Repr

/-- Result object of the callback entry points: `{success: true, visitedSet,
accumulator}`, `{success: false, errors}`, or an exception escaping the call
(`thrown`) — the last models a JS `TypeError` / promise rejection that is not
caught anywhere in the library. -/
inductive COutcome (A : Type) where
  | success (visitedSet : List String) (accumulator : A)
  | failure (errors : List ErrObj)
  | thrown (message : String)
  deriving DecidableEq, Repr

/-- A callback-variant call's observable effect: result object (or escaping
exception) plus the shared state after the call. -/
abbrev CRes (A : Type) := COutcome A × CState A

/-- The `callbackConfig` argument as classified by `validateCallbackConfig`:
either not a plain object, an object whose `callback` is not a function, or a
valid configuration whose callback is modelled as a pure state transformer on
the accumulator that may throw (`Except.error` carries the thrown value's
string rendering). -/
inductive CallbackConfig (A : Type) where
  | notAnObject
  | callbackNotAFunction
  | valid (callback : String → SourceCode → A → Except String A)

/-- Result of `validateCallbackConfig`. -/
inductive CVRes (A : Type) where
  | invalid (errors : List ErrObj)
  | valid (callback : String → SourceCode → A → Except String A)

/-- `validateCallbackConfig`: rejects non-object configs, then configs whose
`callback` is not a function. -/
def validateCallbackConfig {A : Type} : CallbackConfig A → CVRes A
  | .notAnObject => .invalid (makeSuccessFalseTypeError
      "ERROR. Invalid callbackConfig format. The callbackConfig should be an object.")
  | .callbackNotAFunction => .invalid (makeSuccessFalseTypeError
      "ERROR. Invalid callbackConfig.callback format. The callbackConfig.callback should be a function.")
  | .valid callback => .valid callback

/-- The `TypeError` raised when `processImportWithCallbackSync` /
`processImportWithCallbackAsync` is called without its third argument: the
parameter destructuring of `undefined` fails before the function body runs. -/
def destructureErrorMsg : String :=
  "TypeError: Cannot destructure property currentDir of undefined as it is undefined."

/-- One `processImportWithCallbackSync`/`Async` round (when called with all
three arguments): resolve, skip on falsy resolution, otherwise recurse. -/
def processImportWithCallback {A : Type}
    (recur : JSVal → FindAllImportsOptions → CState A → CRes A) (W : World)
    (importPath : String) (s : ProcessImportSettings) (st : CState A) : CRes A :=
  match W.resolveImportingPath s.currentDir importPath s.cwd with
  | none => (.success st.visited st.acc, st)
  | some resolvedPath =>
      recur (.str resolvedPath)
        (makeFindAllImportsOptions s.cwd st.visited s.depth s.maxDepth) st

/-- The statement loop of the callback variants.  The declarative-import and
require branches pass the callback configuration on; the dynamic-import
branch calls the process function with only two arguments
(`processImportWithCallbackSync(node.source.value, processImportSettings)`),
so the settings land in the callback-config parameter, the settings parameter
is `undefined`, and its destructuring throws — modelled by an immediately
escaping `thrown` result.  `cbBind` is the early-return sequencing of that
loop. -/
def cbBind {A : Type} (r : CRes A) (k : CState A → CRes A) : CRes A :=
  match r with
  | (.failure e, st) => (.failure e, st)
  | (.thrown m, st) => (.thrown m, st)
  | (.success _ _, st) => k st

/-- The statement loop of the callback variants, sequenced with early return
on failures and on escaping exceptions (`cbBind`). -/
def scanStatementsWithCallback {A : Type}
    (recur : JSVal → FindAllImportsOptions → CState A → CRes A) (W : World)
    (s : ProcessImportSettings) : List ESNode → CState A → CRes A
  | [], st => (.success st.visited st.acc, st)
  | node :: rest, st =>
    cbBind (if nodeIsImportDeclaration node then
              processImportWithCallback recur W (nodeSourceValue node) s st
            else (.success st.visited st.acc, st)) fun st1 =>
    cbBind (if nodeIsImportExpression node then
              ((.thrown destructureErrorMsg, st1) : CRes A)
            else (.success st1.visited st1.acc, st1)) fun st2 =>
    cbBind (if nodeIsRequireCall node then
              processImportWithCallback recur W (nodeRequireArgValue node) s st2
            else (.success st2.visited st2.acc, st2)) fun st3 =>
    scanStatementsWithCallback recur W s rest st3

/-- The fuel-indexed body shared by `findAllImportsWithCallbackSync` and
`findAllImportsWithCallbackAsync` (the two differ only in whether the
callback's completion is awaited, which the sequential model erases):
validate the file path and options, validate the callback config,
short-circuit on a previous visit, insert the file into the visited set,
invoke the callback (a thrown/rejected callback yields the caught
`CallbackFailure`), then scan the statements. -/
def findAllImportsWithCallbackGo {A : Type} :
    Nat → World → CallbackConfig A → JSVal → FindAllImportsOptions → CState A → CRes A
  | 0, _, _, _, _, st => (.failure [], st)
  | fuel + 1, W, callbackConfig, filePath, opts, st =>
    match validateFilePathAndOptions W filePath opts with
    | .invalid errors => (.failure errors, st)
    | .valid fp cwd _ depth maxDepth sourceCode =>
      match validateCallbackConfig callbackConfig with
      | .invalid errors => (.failure errors, st)
      | .valid callback =>
        if visitedSetHasPreviousVisit st.visited fp then
          (.success st.visited st.acc, st)
        else
          let st1 : CState A := { st with visited := updateVisitedSet st.visited fp }
          match callback fp sourceCode st1.acc with
          | .error e =>
            (.failure (makeSuccessFalseTypeError (callbackErrMsg fp e)),
             { st1 with trace := st1.trace ++ [fp] })
          | .ok acc1 =>
            scanStatementsWithCallback
              (fun fp1 opts1 st3 => findAllImportsWithCallbackGo fuel W callbackConfig fp1 opts1 st3)
              W (makeProcessImportSettings W fp cwd depth maxDepth)
              (astBody sourceCode)
              { st1 with acc := acc1, trace := st1.trace ++ [fp] }

/-- `findAllImportsWithCallbackSync`, the immediate-mode public entry point;
the caller's accumulator is the `accumulator` property of the callback
config. -/
def findAllImportsWithCallbackSync {A : Type} (W : World) (filePath : JSVal)
    (callbackConfig : CallbackConfig A) (accumulator : A)
    (opts : FindAllImportsOptions) : CRes A :=
  findAllImportsWithCallbackGo (minFuel opts) W callbackConfig filePath opts
    ⟨setStrings opts.visitedSet, accumulator, []⟩

/-- `findAllImportsWithCallbackAsync`, the suspension-capable public entry
point: every awaited step completes in sequence, so its sequential semantics
coincide with the immediate-mode engine. -/
def findAllImportsWithCallbackAsync {A : Type} (W : World) (filePath : JSVal)
    (callbackConfig : CallbackConfig A) (accumulator : A)
    (opts : FindAllImportsOptions) : CRes A :=
  findAllImportsWithCallbackGo (minFuel opts) W callbackConfig filePath opts
    ⟨setStrings opts.visitedSet, accumulator, []⟩

/-- The closed error taxonomy of the specification.  The library's error
objects carry a uniform `type: "error"` tag; the kind of an error is
identified by the fixed text its construction site prepends to the
message. -/
inductive ErrorKind where
  | invalidInput
  | depthExceeded
  | fileNotFound
  | parseFailure
  | validationSchemaFailure
  | callbackFailure
  deriving DecidableEq, Repr

/-- Prefix test on strings, by character list. -/
def strStartsWith (s p : String) : Bool :=
  p.data.isPrefixOf s.data

/-- Modelled from the spec: the closed `kind` tag of §7, recovered from an
error's message by the fixed text each construction site uses.  Returns
`none` for messages no site of the library produces. -/
def classifyError (e : ErrObj) : Option ErrorKind :=
  if strStartsWith e.message "ERROR. Max depth " then some .depthExceeded
  else if strStartsWith e.message "ERROR. File not found at " then some .fileNotFound
  else if strStartsWith e.message "ERROR. Failed to parse AST for " then some .parseFailure
  else if strStartsWith e.message "ERROR. Callback error in " then some .callbackFailure
  else if e.message == zodMsg || e.message == zodIssueMsg then
    some .validationSchemaFailure
  else if e.message == "ERROR. " ++ makeIsSupposedToBe "filePath" "a string"
      || e.message == "ERROR. " ++ makeIsSupposedToBe "cwd" "a string"
      || e.message == "ERROR. " ++ makeIsSupposedToBe "visitedSet" "a Set"
      || e.message == "ERROR. " ++ makeIsSupposedToBe "depth" "a number"
      || e.message == "ERROR. " ++ makeIsSupposedToBe "maxDepth" "a number"
      || e.message == "ERROR. Invalid callbackConfig format. The callbackConfig should be an object."
      || e.message == "ERROR. Invalid callbackConfig.callback format. The callbackConfig.callback should be a function."
  then some .invalidInput
  else none

/-- Reference-graph fixture: an `ImportDeclaration` statement node with the
given specifier. -/
def impNode (s : String) : ESNode := ⟨"ImportDeclaration", some s, none⟩

/-- Fixture: a dynamic-import (`ImportExpression`) statement node with the
given specifier. -/
def impExprNode (s : String) : ESNode := ⟨"ImportExpression", some s, none⟩

/-- Fixture: a `require` call statement node with the given literal
specifier. -/
def reqNode (s : String) : ESNode :=
  ⟨"ExpressionStatement", none, some ⟨"CallExpression", some "require", [⟨"Literal", s⟩]⟩⟩

/-- A world realizing a reference graph: the nodes are `files`, every file
parses to one `ImportDeclaration` per successor in `g`, and the resolver
resolves exactly the specifiers naming a file of the graph (everything else
is an external module, skipped). -/
def graphWorld (files : List String) (g : String → List String) : World where
  existsSync f := files.contains f
  getSourceCodeFromFilePath f :=
    if files.contains f then some ⟨some ⟨(g f).map impNode⟩⟩ else none
  resolveImportingPath _ spec _ := if files.contains spec then some spec else none
  dirname _ := ""

/-- Transitive reachability in a reference graph along resolvable edges
(edges whose target is a file of the graph). -/
inductive Reaches (g : String → List String) (files : List String) : String → String → Prop
  | refl (x : String) : Reaches g files x x
  | step {x y z : String} : Reaches g files x y → z ∈ g y → z ∈ files → Reaches g files x z

/-- Number of graph files not yet recorded in a visited list. -/
def countMissing (files vs : List String) : Nat :=
  (files.filter (fun x => !vs.contains x)).length

/-- Linear-chain fixture: the i-th file of a chain, named by a string of i
repetitions of a letter (distinct lengths keep the names distinct). -/
def chainFile (i : Nat) : String := String.mk (List.replicate i 'a')

/-- The files of a linear chain of length `n`. -/
def chainFiles (n : Nat) : List String := (List.range n).map chainFile

/-- The reference function of a linear chain of length `n`: file `i` imports
file `i+1`, the last file imports nothing. -/
def chainG (n : Nat) (s : String) : List String :=
  if s.length + 1 < n then [chainFile (s.length + 1)] else []

/-- A world realizing a linear chain of `n` files. -/
def chainWorld (n : Nat) : World := graphWorld (chainFiles n) (chainG n)

/-- Files `i` (inclusive) to `k` (exclusive) of a chain. -/
def chainSeg (i k : Nat) : List String := (List.range' i (k - i)).map chainFile

/-- Scenario world for fail-fast propagation: file `x` exists and imports
`y`; `y` resolves but does not exist on the filesystem. -/
def failFastWorld : World where
  existsSync f := f == "x"
  getSourceCodeFromFilePath f := if f == "x" then some ⟨some ⟨[impNode "y"]⟩⟩ else none
  resolveImportingPath _ spec _ := some spec
  dirname _ := ""

/-- Scenario world for the dynamic-import branch of the callback variants:
file `x` exists and its only top-level statement is a dynamic import. -/
def dynImportWorld : World where
  existsSync f := f == "x"
  getSourceCodeFromFilePath f := if f == "x" then some ⟨some ⟨[impExprNode "m"]⟩⟩ else none
  resolveImportingPath _ spec _ := some spec
  dirname _ := ""

/-- Scenario world for callback aborts: root `r` imports `s` then `t`; all
three files exist and parse; `s` and `t` import nothing. -/
def cbAbortWorld : World :=
  graphWorld ["r", "s", "t"]
    (fun f => if f = "r" then ["s", "t"] else [])

/-- Scenario callback that records every visited file in a list accumulator
but throws while processing file `s`. -/
def throwOnS : CallbackConfig (List String) :=
  .valid (fun f _ acc => if f == "s" then .error "boom" else .ok (acc ++ [f]))

/-- Scenario world for the diamond graph: `a` imports `b` and `c`; `b`
imports `c`. -/
def diamondFiles : List String := ["a", "b", "c"]

/-- Reference function of the diamond graph. -/
def diamondG (f : String) : List String :=
  if f = "a" then ["b", "c"] else if f = "b" then ["c"] else []

/-- Reference function of the three-cycle `a → b → c → a`. -/
def cycleG (f : String) : List String :=
  if f = "a" then ["b"] else if f = "b" then ["c"] else if f = "c" then ["a"] else []

/-- Scenario world where a dynamic import resolves to an existing local file:
`x` dynamically imports `m`, and `m` exists with no imports of its own. -/
def dynOkWorld : World where
  existsSync f := f == "x" || f == "m"
  getSourceCodeFromFilePath f :=
    if f == "x" then some ⟨some ⟨[impExprNode "m"]⟩⟩
    else if f == "m" then some ⟨some ⟨[]⟩⟩ else none
  resolveImportingPath _ spec _ := if spec == "m" then some "m" else none
  dirname _ := ""

/-- A trivially succeeding callback configuration over a unit accumulator. -/
def okCallbackUnit : CallbackConfig Unit := .valid fun _ _ a => .ok a

/-! ### String and classification lemmas -/

theorem isPrefixOf_append_of_true {l1 l2 x : List Char} (h : l1.isPrefixOf l2 = true) :
    l1.isPrefixOf (l2 ++ x) = true := by
  induction l1 generalizing l2 with
  | nil => simp
  | cons a as ih =>
    cases l2 with
    | nil => simp [List.isPrefixOf] at h
    | cons b bs =>
      rw [List.cons_append, List.isPrefixOf_cons₂, Bool.and_eq_true]
      rw [List.isPrefixOf_cons₂, Bool.and_eq_true] at h
      exact ⟨h.1, ih h.2⟩

theorem isPrefixOf_append_of_take_false {l1 l2 x : List Char}
    (h : (l1.take l2.length).isPrefixOf l2 = false) :
    l1.isPrefixOf (l2 ++ x) = false := by
  induction l1 generalizing l2 with
  | nil => simp at h
  | cons a as ih =>
    cases l2 with
    | nil => simp [List.isPrefixOf] at h
    | cons b bs =>
      rw [List.length_cons, List.take_succ_cons, List.isPrefixOf_cons₂] at h
      rw [List.cons_append, List.isPrefixOf_cons₂]
      cases hab : (a == b) with
      | false => simp [hab]
      | true =>
        simp only [hab, Bool.true_and] at h ⊢
        exact ih h

theorem strStartsWith_append_true {p q : String} (x : String) (h : strStartsWith q p = true) :
    strStartsWith (q ++ x) p = true := by
  simp only [strStartsWith, String.data_append]
  exact isPrefixOf_append_of_true h

theorem strStartsWith_append_false {p q : String} (x : String)
    (h : (p.data.take q.data.length).isPrefixOf q.data = false) :
    strStartsWith (q ++ x) p = false := by
  simp only [strStartsWith, String.data_append]
  exact isPrefixOf_append_of_take_false h

theorem classify_maxDepthMsg (M : Int) (f : String) :
    classifyError ⟨"error", maxDepthMsg M f⟩ = some .depthExceeded := by
  unfold classifyError maxDepthMsg
  rw [strStartsWith_append_true _ (by decide)]
  rfl

theorem classify_fileNotFoundMsg (f : String) :
    classifyError ⟨"error", fileNotFoundMsg f⟩ = some .fileNotFound := by
  unfold classifyError fileNotFoundMsg
  rw [strStartsWith_append_false _ (by decide), strStartsWith_append_true _ (by decide)]
  rfl

theorem classify_parseFailMsg (f : String) :
    classifyError ⟨"error", parseFailMsg f⟩ = some .parseFailure := by
  unfold classifyError parseFailMsg
  rw [strStartsWith_append_false _ (by decide), strStartsWith_append_false _ (by decide),
      strStartsWith_append_true _ (by decide)]
  rfl

theorem classify_callbackErrMsg (f e : String) :
    classifyError ⟨"error", callbackErrMsg f e⟩ = some .callbackFailure := by
  unfold classifyError callbackErrMsg
  rw [strStartsWith_append_false _ (by decide), strStartsWith_append_false _ (by decide),
      strStartsWith_append_false _ (by decide), strStartsWith_append_true _ (by decide)]
  rfl

/-! ### Validator lemmas -/

theorem setStrings_map_str (vs : List String) : setStrings (.set (vs.map .str)) = vs := by
  induction vs with
  | nil => rfl
  | cons a as ih =>
    show a :: setStrings (.set (as.map .str)) = a :: as
    rw [ih]

theorem filter_notString_map_str (vs : List String) :
    (vs.map JSVal.str).filter (fun v => !v.isString) = [] := by
  induction vs with
  | nil => rfl
  | cons a as ih =>
    show (as.map JSVal.str).filter (fun v => !v.isString) = []
    exact ih

theorem validate_tOpts (W : World) (f cwd : String) (vs : List String) (d M : Int) :
    validateFilePathAndOptions W (.str f) (tOpts cwd vs d M) =
      if d > M then .invalid [⟨"error", maxDepthMsg M f⟩]
      else if !W.existsSync f then .invalid [⟨"error", fileNotFoundMsg f⟩]
      else match W.getSourceCodeFromFilePath f with
        | none => .invalid [⟨"error", parseFailMsg f⟩]
        | some sc => match sc.ast with
          | none => .invalid [⟨"error", parseFailMsg f⟩]
          | some _ => .valid f cwd vs d M sc := by
  have hmap := setStrings_map_str vs
  simp only [setStrings] at hmap
  unfold validateFilePathAndOptions tOpts
  simp only [filter_notString_map_str, hmap, makeSuccessFalseTypeError]

theorem validate_valid_inv {W : World} {filePath : JSVal} {opts : FindAllImportsOptions}
    {fp cwd : String} {vsD : List String} {d M : Int} {sc : SourceCode}
    (h : validateFilePathAndOptions W filePath opts = .valid fp cwd vsD d M sc) :
    filePath = .str fp ∧ opts.cwd = .str cwd ∧ opts.depth = .num d ∧
    opts.maxDepth = .num M ∧ d ≤ M ∧ setStrings opts.visitedSet = vsD ∧
    W.existsSync fp = true ∧ W.getSourceCodeFromFilePath fp = some sc ∧ sc.ast ≠ none := by
  obtain ⟨c, v, dp, mx⟩ := opts
  unfold validateFilePathAndOptions at h
  repeat' split at h
  all_goals simp_all [setStrings]

theorem validate_invalid_classified {W : World} {filePath : JSVal}
    {opts : FindAllImportsOptions} {E : List ErrObj}
    (h : validateFilePathAndOptions W filePath opts = .invalid E) :
    E ≠ [] ∧ ∀ e ∈ E, (classifyError e).isSome := by
  obtain ⟨c, v, dp, mx⟩ := opts
  unfold validateFilePathAndOptions at h
  repeat' split at h
  all_goals first
    | exact VRes.noConfusion h
    | (injection h with hE
       subst hE
       refine ⟨by simp [makeSuccessFalseTypeError], fun e he => ?_⟩
       simp only [makeSuccessFalseTypeError, List.mem_cons, List.mem_singleton,
         List.mem_map, List.not_mem_nil, or_false] at he
       first
         | (obtain rfl := he
            first
              | decide
              | simp [classify_maxDepthMsg]
              | simp [classify_fileNotFoundMsg]
              | simp [classify_parseFailMsg])
         | (rcases he with rfl | ⟨a, ha, rfl⟩ <;> decide))

/-! ### Fuel adequacy for the plain engine -/

theorem minFuel_pos (opts : FindAllImportsOptions) : 1 ≤ minFuel opts := by
  unfold minFuel; omega

theorem child_minFuel {opts : FindAllImportsOptions} {d M : Int} {fuel : Nat}
    (hd : opts.depth = .num d) (hM : opts.maxDepth = .num M) (hdM : d ≤ M)
    (hf : minFuel opts ≤ fuel + 1) (cwd : String) (vs1 : List String) :
    minFuel (makeFindAllImportsOptions cwd vs1 d M) ≤ fuel := by
  unfold minFuel at hf ⊢
  unfold makeFindAllImportsOptions
  rw [hd, hM] at hf
  simp only [JSVal.asInt] at hf ⊢
  omega

theorem processImport_congr {recur1 recur2 : JSVal → FindAllImportsOptions → FRes}
    (W : World) (p : String) (s : ProcessImportSettings) (vs : List String)
    (h : ∀ fp1 vs1, recur1 fp1 (makeFindAllImportsOptions s.cwd vs1 s.depth s.maxDepth)
        = recur2 fp1 (makeFindAllImportsOptions s.cwd vs1 s.depth s.maxDepth)) :
    processImport recur1 W p s vs = processImport recur2 W p s vs := by
  unfold processImport
  cases W.resolveImportingPath s.currentDir p s.cwd with
  | none => rfl
  | some r => exact h (.str r) vs

theorem resBind_congr {r : FRes} {k1 k2 : List String → FRes}
    (hk : ∀ st, k1 st = k2 st) : resBind r k1 = resBind r k2 := by
  unfold resBind
  rcases r with ⟨out, st⟩
  cases out <;> simp [hk]

theorem scanStatements_congr {recur1 recur2 : JSVal → FindAllImportsOptions → FRes}
    (W : World) (s : ProcessImportSettings)
    (h : ∀ fp1 vs1, recur1 fp1 (makeFindAllImportsOptions s.cwd vs1 s.depth s.maxDepth)
        = recur2 fp1 (makeFindAllImportsOptions s.cwd vs1 s.depth s.maxDepth)) :
    ∀ (nodes : List ESNode) (vs : List String),
      scanStatements recur1 W s nodes vs = scanStatements recur2 W s nodes vs := by
  intro nodes
  induction nodes with
  | nil => intro vs; rfl
  | cons node rest ih =>
    intro vs
    unfold scanStatements
    have e1 : (if nodeIsImportDeclaration node then
          processImport recur1 W (nodeSourceValue node) s vs
        else (.success vs, vs)) = (if nodeIsImportDeclaration node then
          processImport recur2 W (nodeSourceValue node) s vs
        else (.success vs, vs)) := by
      split
      · exact processImport_congr W _ s _ h
      · rfl
    rw [e1]
    refine resBind_congr (fun st1 => ?_)
    have e2 : (if nodeIsImportExpression node then
          processImport recur1 W (nodeSourceValue node) s st1
        else (.success st1, st1)) = (if nodeIsImportExpression node then
          processImport recur2 W (nodeSourceValue node) s st1
        else (.success st1, st1)) := by
      split
      · exact processImport_congr W _ s _ h
      · rfl
    rw [e2]
    refine resBind_congr (fun st2 => ?_)
    have e3 : (if nodeIsRequireCall node then
          processImport recur1 W (nodeRequireArgValue node) s st2
        else (.success st2, st2)) = (if nodeIsRequireCall node then
          processImport recur2 W (nodeRequireArgValue node) s st2
        else (.success st2, st2)) := by
      split
      · exact processImport_congr W _ s _ h
      · rfl
    rw [e3]
    exact resBind_congr (fun st3 => ih st3)

theorem findAllImportsGo_fuel : ∀ (fuel1 fuel2 : Nat) (W : World) (fp : JSVal)
    (opts : FindAllImportsOptions), minFuel opts ≤ fuel1 → minFuel opts ≤ fuel2 →
    findAllImportsGo fuel1 W fp opts = findAllImportsGo fuel2 W fp opts := by
  intro fuel1
  induction fuel1 with
  | zero =>
    intro fuel2 W fp opts h1 _
    exact absurd h1 (by have := minFuel_pos opts; omega)
  | succ k ih =>
    intro fuel2 W fp opts h1 h2
    cases fuel2 with
    | zero => exact absurd h2 (by have := minFuel_pos opts; omega)
    | succ m =>
      unfold findAllImportsGo
      cases hv : validateFilePathAndOptions W fp opts with
      | invalid errors => rfl
      | valid fp1 cwd vsD d M sc =>
        obtain ⟨-, -, hd, hM, hdM, -, -, -, -⟩ := validate_valid_inv hv
        by_cases hvis : visitedSetHasPreviousVisit (setStrings opts.visitedSet) fp1 = true
        · simp [hvis]
        · simp only [hvis, Bool.false_eq_true, if_false, eq_self_iff_true]
          apply scanStatements_congr
          intro fp1' vs1
          exact ih m W fp1' (makeFindAllImportsOptions cwd vs1 d M)
            (child_minFuel hd hM hdM h1 cwd vs1) (child_minFuel hd hM hdM h2 cwd vs1)

theorem findAllImportsGo_eq_findAllImports {W : World} {fp : JSVal}
    {opts : FindAllImportsOptions} {fuel : Nat} (h : minFuel opts ≤ fuel) :
    findAllImportsGo fuel W fp opts = findAllImports W fp opts :=
  findAllImportsGo_fuel fuel (minFuel opts) W fp opts h (Nat.le_refl _)

/-! ### Generic state lemmas for the plain engine -/

theorem ext_refl (vs : List String) : ∃ δ, vs = vs ++ δ := ⟨[], by simp⟩

theorem ext_trans {a b c : List String} (hab : ∃ δ, b = a ++ δ) (hbc : ∃ δ, c = b ++ δ) :
    ∃ δ, c = a ++ δ := by
  obtain ⟨δ1, h1⟩ := hab
  obtain ⟨δ2, h2⟩ := hbc
  exact ⟨δ1 ++ δ2, by rw [h2, h1, List.append_assoc]⟩

theorem resBind_ext {vs : List String} {r : FRes} {k : List String → FRes}
    (hr : ∃ δ, r.2 = vs ++ δ)
    (hk : ∀ st, (∃ δ, st = vs ++ δ) → ∃ δ, (k st).2 = vs ++ δ) :
    ∃ δ, (resBind r k).2 = vs ++ δ := by
  rcases r with ⟨o1, s1⟩
  cases o1 with
  | success o => exact hk s1 hr
  | failure e => exact hr

theorem processImport_state (recur : JSVal → FindAllImportsOptions → FRes) (W : World)
    (s : ProcessImportSettings)
    (hrec : ∀ fp1 vs1,
      ∃ δ, (recur fp1 (makeFindAllImportsOptions s.cwd vs1 s.depth s.maxDepth)).2 = vs1 ++ δ)
    (p : String) (vs : List String) :
    ∃ δ, (processImport recur W p s vs).2 = vs ++ δ := by
  unfold processImport
  cases W.resolveImportingPath s.currentDir p s.cwd with
  | none => exact ext_refl vs
  | some r => exact hrec (.str r) vs

theorem scanStatements_state (recur : JSVal → FindAllImportsOptions → FRes) (W : World)
    (s : ProcessImportSettings)
    (hrec : ∀ fp1 vs1,
      ∃ δ, (recur fp1 (makeFindAllImportsOptions s.cwd vs1 s.depth s.maxDepth)).2 = vs1 ++ δ) :
    ∀ (nodes : List ESNode) (vs : List String),
      ∃ δ, (scanStatements recur W s nodes vs).2 = vs ++ δ := by
  intro nodes
  induction nodes with
  | nil => intro vs; exact ext_refl vs
  | cons node rest ih =>
    intro vs
    unfold scanStatements
    refine resBind_ext ?_ (fun st1 h1 => ?_)
    · split
      · exact processImport_state recur W s hrec _ _
      · exact ext_refl vs
    refine resBind_ext (ext_trans h1 ?_) (fun st2 h2 => ?_)
    · split
      · exact processImport_state recur W s hrec _ _
      · exact ext_refl st1
    refine resBind_ext (ext_trans h2 ?_) (fun st3 h3 => ?_)
    · split
      · exact processImport_state recur W s hrec _ _
      · exact ext_refl st2
    exact ext_trans h3 (ih st3)

theorem findAllImportsGo_state : ∀ (fuel : Nat) (W : World) (fp : JSVal)
    (opts : FindAllImportsOptions),
    ∃ δ, (findAllImportsGo fuel W fp opts).2 = setStrings opts.visitedSet ++ δ := by
  intro fuel
  induction fuel with
  | zero => intro W fp opts; exact ext_refl _
  | succ k ih =>
    intro W fp opts
    unfold findAllImportsGo
    cases hv : validateFilePathAndOptions W fp opts with
    | invalid errors => exact ext_refl _
    | valid fp1 cwd vsD d M sc =>
      by_cases hvis : visitedSetHasPreviousVisit (setStrings opts.visitedSet) fp1 = true
      · simp only [hvis, if_true]
        exact ext_refl _
      · simp only [hvis, Bool.false_eq_true, if_false]
        refine ext_trans (show ∃ δ, updateVisitedSet (setStrings opts.visitedSet) fp1
            = setStrings opts.visitedSet ++ δ from ?_) ?_
        · unfold updateVisitedSet
          unfold visitedSetHasPreviousVisit at hvis
          simp only [Bool.not_eq_true] at hvis
          rw [hvis]
          exact ⟨[fp1], by simp⟩
        · apply scanStatements_state
          intro fp1' vs1
          have h := ih W fp1' (makeFindAllImportsOptions cwd vs1 d M)
          rwa [show setStrings (makeFindAllImportsOptions cwd vs1 d M).visitedSet = vs1
            from setStrings_map_str vs1] at h

theorem findAllImports_state (W : World) (fp : JSVal) (opts : FindAllImportsOptions) :
    ∃ δ, (findAllImports W fp opts).2 = setStrings opts.visitedSet ++ δ :=
  findAllImportsGo_state (minFuel opts) W fp opts

theorem resBind_success_eq {r : FRes} {k : List String → FRes} {out : List String}
    {st : List String}
    (hk : ∀ st1 out1 st2, k st1 = (.success out1, st2) → out1 = st2)
    (h : resBind r k = (.success out, st)) : out = st := by
  rcases r with ⟨o1, s1⟩
  cases o1 with
  | success o => exact hk s1 out st h
  | failure e => exact absurd h (by simp [resBind])

theorem scanStatements_success_eq {recur : JSVal → FindAllImportsOptions → FRes} {W : World}
    {s : ProcessImportSettings} :
    ∀ (nodes : List ESNode) (vs out st : List String),
      scanStatements recur W s nodes vs = (.success out, st) → out = st := by
  intro nodes
  induction nodes with
  | nil =>
    intro vs out st h
    unfold scanStatements at h
    injection h with h1 h2
    injection h1 with h1
    exact h1.symm.trans h2
  | cons node rest ih =>
    intro vs out st h
    unfold scanStatements at h
    refine resBind_success_eq (fun st1 out1 st2 h1 => ?_) h
    refine resBind_success_eq (fun st2' out2 st3 h2 => ?_) h1
    refine resBind_success_eq (fun st3' out3 st4 h3 => ?_) h2
    exact ih st3' out3 st4 h3

theorem findAllImportsGo_success_eq {fuel : Nat} {W : World} {fp : JSVal}
    {opts : FindAllImportsOptions} {out st : List String}
    (h : findAllImportsGo fuel W fp opts = (.success out, st)) : out = st := by
  cases fuel with
  | zero => exact absurd h (by simp [findAllImportsGo])
  | succ k =>
    unfold findAllImportsGo at h
    rcases hv : validateFilePathAndOptions W fp opts with E | ⟨fp1, cwd, vsD, d, M, sc⟩
    · rw [hv] at h
      exact absurd h (by simp)
    · rw [hv] at h
      by_cases hvis : visitedSetHasPreviousVisit (setStrings opts.visitedSet) fp1 = true
      · simp only [hvis, if_true] at h
        injection h with h1 h2
        injection h1 with h1
        exact h1.symm.trans h2
      · simp only [hvis, Bool.false_eq_true, if_false] at h
        exact scanStatements_success_eq _ _ out st h

theorem findAllImportsGo_success_mem {fuel : Nat} {W : World} {f : String}
    {opts : FindAllImportsOptions} {out st : List String}
    (h : findAllImportsGo fuel W (.str f) opts = (.success out, st)) : f ∈ st := by
  cases fuel with
  | zero => exact absurd h (by simp [findAllImportsGo])
  | succ k =>
    unfold findAllImportsGo at h
    rcases hv : validateFilePathAndOptions W (.str f) opts with E | ⟨fp1, cwd, vsD, d, M, sc⟩
    · rw [hv] at h
      exact absurd h (by simp)
    · rw [hv] at h
      obtain ⟨hfp, -, -, -, -, -, -, -, -⟩ := validate_valid_inv hv
      injection hfp with hfp
      subst hfp
      by_cases hvis : visitedSetHasPreviousVisit (setStrings opts.visitedSet) f = true
      · simp only [hvis, if_true] at h
        injection h with h1 h2
        unfold visitedSetHasPreviousVisit at hvis
        rw [← h2]
        simpa using hvis
      · simp only [hvis, Bool.false_eq_true, if_false] at h
        have hstate : ∃ δ, st = updateVisitedSet (setStrings opts.visitedSet) f ++ δ := by
          have h2 := scanStatements_state
            (fun fp1 opts1 => findAllImportsGo k W fp1 opts1) W
            (makeProcessImportSettings W f cwd d M)
            (fun fp1' vs1 => by
              have hx := findAllImportsGo_state k W fp1'
                (makeFindAllImportsOptions cwd vs1 d M)
              rwa [show setStrings (makeFindAllImportsOptions cwd vs1 d M).visitedSet = vs1
                from setStrings_map_str vs1] at hx)
            (astBody sc) (updateVisitedSet (setStrings opts.visitedSet) f)
          rw [h] at h2
          exact h2
        obtain ⟨δ, hδ⟩ := hstate
        rw [hδ]
        unfold updateVisitedSet
        unfold visitedSetHasPreviousVisit at hvis
        simp only [Bool.not_eq_true] at hvis
        rw [hvis]
        simp

/-! ### Node-kind exclusivity and fail-fast propagation -/

theorem not_decl_of_expr {node : ESNode} (h : nodeIsImportExpression node = true) :
    nodeIsImportDeclaration node = false := by
  unfold nodeIsImportExpression at h
  unfold nodeIsImportDeclaration
  rw [beq_iff_eq] at h
  rw [h]
  decide

theorem not_decl_of_req {node : ESNode} (h : nodeIsRequireCall node = true) :
    nodeIsImportDeclaration node = false := by
  unfold nodeIsRequireCall at h
  unfold nodeIsImportDeclaration
  rw [Bool.and_eq_true] at h
  rw [beq_iff_eq] at h
  rw [h.1]
  decide

theorem not_expr_of_req {node : ESNode} (h : nodeIsRequireCall node = true) :
    nodeIsImportExpression node = false := by
  unfold nodeIsRequireCall at h
  unfold nodeIsImportExpression
  rw [Bool.and_eq_true] at h
  rw [beq_iff_eq] at h
  rw [h.1]
  decide

theorem resBind_success (o st : List String) (k : List String → FRes) :
    resBind (.success o, st) k = k st := rfl

theorem resBind_failure (e : List ErrObj) (st : List String) (k : List String → FRes) :
    resBind (.failure e, st) k = (.failure e, st) := rfl

theorem scanStatements_failfast_decl (recur : JSVal → FindAllImportsOptions → FRes)
    (W : World) (s : ProcessImportSettings) {node : ESNode} (rest : List ESNode)
    {vs : List String} {E : List ErrObj} {st : List String} {r : String}
    (hkind : nodeIsImportDeclaration node = true)
    (hres : W.resolveImportingPath s.currentDir (nodeSourceValue node) s.cwd = some r)
    (hfail : recur (.str r) (makeFindAllImportsOptions s.cwd vs s.depth s.maxDepth)
      = (.failure E, st)) :
    scanStatements recur W s (node :: rest) vs = (.failure E, st) := by
  unfold scanStatements processImport
  rw [hkind]
  simp only [if_true, hres, hfail, resBind_failure]

theorem scanStatements_failfast_expr (recur : JSVal → FindAllImportsOptions → FRes)
    (W : World) (s : ProcessImportSettings) {node : ESNode} (rest : List ESNode)
    {vs : List String} {E : List ErrObj} {st : List String} {r : String}
    (hkind : nodeIsImportExpression node = true)
    (hres : W.resolveImportingPath s.currentDir (nodeSourceValue node) s.cwd = some r)
    (hfail : recur (.str r) (makeFindAllImportsOptions s.cwd vs s.depth s.maxDepth)
      = (.failure E, st)) :
    scanStatements recur W s (node :: rest) vs = (.failure E, st) := by
  unfold scanStatements processImport
  rw [hkind, not_decl_of_expr hkind]
  simp only [Bool.false_eq_true, if_false, if_true, resBind_success, hres, hfail,
    resBind_failure]

theorem scanStatements_failfast_req (recur : JSVal → FindAllImportsOptions → FRes)
    (W : World) (s : ProcessImportSettings) {node : ESNode} (rest : List ESNode)
    {vs : List String} {E : List ErrObj} {st : List String} {r : String}
    (hkind : nodeIsRequireCall node = true)
    (hres : W.resolveImportingPath s.currentDir (nodeRequireArgValue node) s.cwd = some r)
    (hfail : recur (.str r) (makeFindAllImportsOptions s.cwd vs s.depth s.maxDepth)
      = (.failure E, st)) :
    scanStatements recur W s (node :: rest) vs = (.failure E, st) := by
  unfold scanStatements processImport
  rw [hkind, not_decl_of_req hkind, not_expr_of_req hkind]
  simp only [Bool.false_eq_true, if_false, if_true, resBind_success, hres, hfail,
    resBind_failure]

/-! ### Membership, classification and dedup lemmas for the scan loop -/

theorem mem_of_ext {a : String} {b c : List String} (h : a ∈ b) (he : ∃ δ, c = b ++ δ) :
    a ∈ c := by
  obtain ⟨δ, rfl⟩ := he
  exact List.mem_append_left δ h

theorem scanStatements_expr_mem (recur : JSVal → FindAllImportsOptions → FRes) (W : World)
    (s : ProcessImportSettings)
    (hstate : ∀ fp1 vs1,
      ∃ δ, (recur fp1 (makeFindAllImportsOptions s.cwd vs1 s.depth s.maxDepth)).2 = vs1 ++ δ)
    (hmem : ∀ (r1 : String) (vs1 out1 st1 : List String),
      recur (.str r1) (makeFindAllImportsOptions s.cwd vs1 s.depth s.maxDepth)
        = (.success out1, st1) → r1 ∈ st1) :
    ∀ (nodes : List ESNode) (vs out st : List String),
      scanStatements recur W s nodes vs = (.success out, st) →
      ∀ node ∈ nodes, nodeIsImportExpression node = true →
      ∀ r, W.resolveImportingPath s.currentDir (nodeSourceValue node) s.cwd = some r →
      r ∈ st := by
  intro nodes
  induction nodes with
  | nil => intro vs out st h node hn; exact absurd hn (List.not_mem_nil node)
  | cons node1 rest ih =>
    intro vs out st h node hn hkind r hres
    unfold scanStatements at h
    rcases hS1 : (if nodeIsImportDeclaration node1 then
        processImport recur W (nodeSourceValue node1) s vs
      else (.success vs, vs)) with ⟨o1, s1⟩
    rw [hS1] at h
    cases o1 with
    | failure e => rw [resBind_failure] at h; exact absurd h (by simp)
    | success o1v =>
    rw [resBind_success] at h
    rcases hS2 : (if nodeIsImportExpression node1 then
        processImport recur W (nodeSourceValue node1) s s1
      else (.success s1, s1)) with ⟨o2, s2⟩
    rw [hS2] at h
    cases o2 with
    | failure e => rw [resBind_failure] at h; exact absurd h (by simp)
    | success o2v =>
    rw [resBind_success] at h
    rcases hS3 : (if nodeIsRequireCall node1 then
        processImport recur W (nodeRequireArgValue node1) s s2
      else (.success s2, s2)) with ⟨o3, s3⟩
    rw [hS3] at h
    cases o3 with
    | failure e => rw [resBind_failure] at h; exact absurd h (by simp)
    | success o3v =>
    rw [resBind_success] at h
    have e3 : ∃ δ, s3 = s2 ++ δ := by
      have hx : ∃ δ, (if nodeIsRequireCall node1 then
          processImport recur W (nodeRequireArgValue node1) s s2
        else ((.success s2, s2) : FRes)).2 = s2 ++ δ := by
        split
        · exact processImport_state recur W s hstate _ _
        · exact ext_refl s2
      rw [hS3] at hx
      exact hx
    have e4 : ∃ δ, st = s3 ++ δ := by
      have hx := scanStatements_state recur W s hstate rest s3
      rw [h] at hx
      exact hx
    rcases List.mem_cons.mp hn with rfl | hn1
    · rw [not_decl_of_expr hkind] at hS1
      simp only [Bool.false_eq_true, if_false] at hS1
      injection hS1 with hS1o hS1s
      rw [hkind] at hS2
      simp only [if_true] at hS2
      unfold processImport at hS2
      rw [hres] at hS2
      have hr2 : r ∈ s2 := hmem r s1 o2v s2 hS2
      exact mem_of_ext (mem_of_ext hr2 e3) e4
    · exact ih s3 out st h node hn1 hkind r hres

theorem processImport_failure_classified (recur : JSVal → FindAllImportsOptions → FRes)
    (W : World) (s : ProcessImportSettings)
    (hrec : ∀ fp1 vs1 E st,
      recur fp1 (makeFindAllImportsOptions s.cwd vs1 s.depth s.maxDepth) = (.failure E, st) →
      E ≠ [] ∧ ∀ e ∈ E, (classifyError e).isSome)
    (p : String) (vs : List String) {E : List ErrObj} {st : List String}
    (h : processImport recur W p s vs = (.failure E, st)) :
    E ≠ [] ∧ ∀ e ∈ E, (classifyError e).isSome := by
  unfold processImport at h
  cases hr : W.resolveImportingPath s.currentDir p s.cwd with
  | none => rw [hr] at h; exact absurd h (by simp)
  | some r => rw [hr] at h; exact hrec (.str r) vs E st h

theorem scanStatements_failure_classified (recur : JSVal → FindAllImportsOptions → FRes)
    (W : World) (s : ProcessImportSettings)
    (hrec : ∀ fp1 vs1 E st,
      recur fp1 (makeFindAllImportsOptions s.cwd vs1 s.depth s.maxDepth) = (.failure E, st) →
      E ≠ [] ∧ ∀ e ∈ E, (classifyError e).isSome) :
    ∀ (nodes : List ESNode) (vs : List String) (E : List ErrObj) (st : List String),
      scanStatements recur W s nodes vs = (.failure E, st) →
      E ≠ [] ∧ ∀ e ∈ E, (classifyError e).isSome := by
  intro nodes
  induction nodes with
  | nil => intro vs E st h; exact absurd h (by simp [scanStatements])
  | cons node1 rest ih =>
    intro vs E st h
    unfold scanStatements at h
    rcases hS1 : (if nodeIsImportDeclaration node1 then
        processImport recur W (nodeSourceValue node1) s vs
      else (.success vs, vs)) with ⟨o1, s1⟩
    rw [hS1] at h
    cases o1 with
    | failure e =>
      rw [resBind_failure] at h
      injection h with h1 h2
      injection h1 with h1
      subst h1
      by_cases hdecl : nodeIsImportDeclaration node1 = true
      · rw [if_pos hdecl] at hS1
        exact processImport_failure_classified recur W s hrec _ _ hS1
      · rw [if_neg hdecl] at hS1
        exact absurd hS1 (by simp)
    | success o1v =>
    rw [resBind_success] at h
    rcases hS2 : (if nodeIsImportExpression node1 then
        processImport recur W (nodeSourceValue node1) s s1
      else (.success s1, s1)) with ⟨o2, s2⟩
    rw [hS2] at h
    cases o2 with
    | failure e =>
      rw [resBind_failure] at h
      injection h with h1 h2
      injection h1 with h1
      subst h1
      by_cases hexpr : nodeIsImportExpression node1 = true
      · rw [if_pos hexpr] at hS2
        exact processImport_failure_classified recur W s hrec _ _ hS2
      · rw [if_neg hexpr] at hS2
        exact absurd hS2 (by simp)
    | success o2v =>
    rw [resBind_success] at h
    rcases hS3 : (if nodeIsRequireCall node1 then
        processImport recur W (nodeRequireArgValue node1) s s2
      else (.success s2, s2)) with ⟨o3, s3⟩
    rw [hS3] at h
    cases o3 with
    | failure e =>
      rw [resBind_failure] at h
      injection h with h1 h2
      injection h1 with h1
      subst h1
      by_cases hreq : nodeIsRequireCall node1 = true
      · rw [if_pos hreq] at hS3
        exact processImport_failure_classified recur W s hrec _ _ hS3
      · rw [if_neg hreq] at hS3
        exact absurd hS3 (by simp)
    | success o3v =>
    rw [resBind_success] at h
    exact ih s3 E st h

theorem processImport_nodup (recur : JSVal → FindAllImportsOptions → FRes)
    (W : World) (s : ProcessImportSettings)
    (hrec : ∀ fp1 vs1, vs1.Nodup →
      ((recur fp1 (makeFindAllImportsOptions s.cwd vs1 s.depth s.maxDepth)).2).Nodup)
    (p : String) {vs : List String} (hvs : vs.Nodup) :
    ((processImport recur W p s vs).2).Nodup := by
  unfold processImport
  cases W.resolveImportingPath s.currentDir p s.cwd with
  | none => exact hvs
  | some r => exact hrec (.str r) vs hvs

theorem scanStatements_nodup (recur : JSVal → FindAllImportsOptions → FRes)
    (W : World) (s : ProcessImportSettings)
    (hrec : ∀ fp1 vs1, vs1.Nodup →
      ((recur fp1 (makeFindAllImportsOptions s.cwd vs1 s.depth s.maxDepth)).2).Nodup) :
    ∀ (nodes : List ESNode) (vs : List String), vs.Nodup →
      ((scanStatements recur W s nodes vs).2).Nodup := by
  intro nodes
  induction nodes with
  | nil => intro vs hvs; exact hvs
  | cons node1 rest ih =>
    intro vs hvs
    unfold scanStatements
    rcases hS1 : (if nodeIsImportDeclaration node1 then
        processImport recur W (nodeSourceValue node1) s vs
      else (.success vs, vs)) with ⟨o1, s1⟩
    have hs1 : s1.Nodup := by
      have hx : ((if nodeIsImportDeclaration node1 then
          processImport recur W (nodeSourceValue node1) s vs
        else ((.success vs, vs) : FRes)).2).Nodup := by
        split
        · exact processImport_nodup recur W s hrec _ hvs
        · exact hvs
      rw [hS1] at hx
      exact hx
    cases o1 with
    | failure e => rw [resBind_failure]; exact hs1
    | success o1v =>
    rw [resBind_success]
    rcases hS2 : (if nodeIsImportExpression node1 then
        processImport recur W (nodeSourceValue node1) s s1
      else (.success s1, s1)) with ⟨o2, s2⟩
    have hs2 : s2.Nodup := by
      have hx : ((if nodeIsImportExpression node1 then
          processImport recur W (nodeSourceValue node1) s s1
        else ((.success s1, s1) : FRes)).2).Nodup := by
        split
        · exact processImport_nodup recur W s hrec _ hs1
        · exact hs1
      rw [hS2] at hx
      exact hx
    cases o2 with
    | failure e => rw [resBind_failure]; exact hs2
    | success o2v =>
    rw [resBind_success]
    rcases hS3 : (if nodeIsRequireCall node1 then
        processImport recur W (nodeRequireArgValue node1) s s2
      else (.success s2, s2)) with ⟨o3, s3⟩
    have hs3 : s3.Nodup := by
      have hx : ((if nodeIsRequireCall node1 then
          processImport recur W (nodeRequireArgValue node1) s s2
        else ((.success s2, s2) : FRes)).2).Nodup := by
        split
        · exact processImport_nodup recur W s hrec _ hs2
        · exact hs2
      rw [hS3] at hx
      exact hx
    cases o3 with
    | failure e => rw [resBind_failure]; exact hs3
    | success o3v =>
    rw [resBind_success]
    exact ih s3 hs3

/-! ### Engine-level classification and dedup -/

theorem findAllImportsGo_failure_classified : ∀ (fuel : Nat) (W : World) (fp : JSVal)
    (opts : FindAllImportsOptions) (E : List ErrObj) (st : List String),
    minFuel opts ≤ fuel → findAllImportsGo fuel W fp opts = (.failure E, st) →
    E ≠ [] ∧ ∀ e ∈ E, (classifyError e).isSome := by
  intro fuel
  induction fuel with
  | zero =>
    intro W fp opts E st hf
    exact absurd hf (by have := minFuel_pos opts; omega)
  | succ k ih =>
    intro W fp opts E st hf h
    unfold findAllImportsGo at h
    rcases hv : validateFilePathAndOptions W fp opts with E1 | ⟨fp1, cwd, vsD, d, M, sc⟩
    · rw [hv] at h
      injection h with h1 h2
      injection h1 with h1
      subst h1
      exact validate_invalid_classified hv
    · rw [hv] at h
      obtain ⟨-, -, hd, hM, hdM, -, -, -, -⟩ := validate_valid_inv hv
      by_cases hvis : visitedSetHasPreviousVisit (setStrings opts.visitedSet) fp1 = true
      · simp only [hvis, if_true] at h
        exact absurd h (by simp)
      · simp only [hvis, Bool.false_eq_true, if_false] at h
        refine scanStatements_failure_classified _ W _ ?_ _ _ E st h
        intro fp1' vs1 E' st' h'
        exact ih W fp1' (makeFindAllImportsOptions cwd vs1 d M) E' st'
          (child_minFuel hd hM hdM hf cwd vs1) h'

theorem findAllImportsGo_nodup : ∀ (fuel : Nat) (W : World) (fp : JSVal)
    (opts : FindAllImportsOptions), (setStrings opts.visitedSet).Nodup →
    ((findAllImportsGo fuel W fp opts).2).Nodup := by
  intro fuel
  induction fuel with
  | zero => intro W fp opts hvs; exact hvs
  | succ k ih =>
    intro W fp opts hvs
    unfold findAllImportsGo
    rcases hv : validateFilePathAndOptions W fp opts with E1 | ⟨fp1, cwd, vsD, d, M, sc⟩
    · exact hvs
    · by_cases hvis : visitedSetHasPreviousVisit (setStrings opts.visitedSet) fp1 = true
      · simp only [hvis, if_true]
        exact hvs
      · simp only [hvis, Bool.false_eq_true, if_false]
        refine scanStatements_nodup _ W _ ?_ _ _ ?_
        · intro fp1' vs1 hvs1
          have hx := ih W fp1' (makeFindAllImportsOptions cwd vs1 d M)
          rw [show setStrings (makeFindAllImportsOptions cwd vs1 d M).visitedSet = vs1
            from setStrings_map_str vs1] at hx
          exact hx hvs1
        · unfold updateVisitedSet
          unfold visitedSetHasPreviousVisit at hvis
          simp only [Bool.not_eq_true] at hvis
          rw [hvis]
          simp only [Bool.false_eq_true, if_false]
          rw [List.nodup_append]
          refine ⟨hvs, List.nodup_singleton fp1, ?_⟩
          intro a ha hb
          rw [List.mem_singleton] at hb
          subst hb
          have : (setStrings opts.visitedSet).contains a = true := by
            simpa using ha
          rw [this] at hvis
          exact Bool.noConfusion hvis

/-! ### Reference-graph helper lemmas -/

theorem contains_eq_true_of_mem {l : List String} {a : String} (h : a ∈ l) :
    l.contains a = true := by
  simpa using h

theorem contains_eq_false_of_not_mem {l : List String} {a : String} (h : a ∉ l) :
    l.contains a = false := by
  simpa using h

theorem mem_of_contains_eq_true {l : List String} {a : String} (h : l.contains a = true) :
    a ∈ l := by
  simpa using h

theorem countMissing_le_of_ext (files : List String) {vs1 vs2 : List String}
    (h : ∃ δ, vs2 = vs1 ++ δ) : countMissing files vs2 ≤ countMissing files vs1 := by
  obtain ⟨δ, rfl⟩ := h
  induction files with
  | nil => exact Nat.le_refl 0
  | cons a fs ih =>
    unfold countMissing at ih ⊢
    rw [List.filter_cons, List.filter_cons]
    by_cases ha : a ∈ vs1
    · rw [contains_eq_true_of_mem ha,
        contains_eq_true_of_mem (List.mem_append_left δ ha)]
      simpa using ih
    · by_cases hb : a ∈ vs1 ++ δ
      · rw [contains_eq_true_of_mem hb, contains_eq_false_of_not_mem ha]
        simp only [Bool.not_false, Bool.not_true, if_true, if_false, List.length_cons]
        exact Nat.le_succ_of_le ih
      · rw [contains_eq_false_of_not_mem ha, contains_eq_false_of_not_mem hb]
        simpa using ih

theorem countMissing_append_not_mem {fs vs : List String} {f : String} (h : f ∉ fs) :
    countMissing fs (vs ++ [f]) = countMissing fs vs := by
  induction fs with
  | nil => rfl
  | cons a fs1 ih =>
    have ha : a ≠ f := fun he => h (he ▸ List.mem_cons_self a fs1)
    have hsub : f ∉ fs1 := fun hm => h (List.mem_cons_of_mem a hm)
    have ihx := ih hsub
    unfold countMissing at ihx ⊢
    rw [List.filter_cons, List.filter_cons]
    have hcon : (vs ++ [f]).contains a = vs.contains a := by
      by_cases hv : a ∈ vs
      · rw [contains_eq_true_of_mem hv,
          contains_eq_true_of_mem (List.mem_append_left [f] hv)]
      · rw [contains_eq_false_of_not_mem hv, contains_eq_false_of_not_mem ?_]
        intro hm
        rcases List.mem_append.mp hm with hm1 | hm1
        · exact hv hm1
        · exact ha (List.mem_singleton.mp hm1)
    rw [hcon]
    cases hvc : vs.contains a
    · simp only [Bool.not_false, if_true, List.length_cons]
      rw [ihx]
    · simp only [Bool.not_true, Bool.false_eq_true, if_false]
      exact ihx

theorem countMissing_insert {files vs : List String} {f : String}
    (hf : f ∈ files) (hnvs : f ∉ vs) (hnd : files.Nodup) :
    countMissing files (vs ++ [f]) + 1 = countMissing files vs := by
  induction files with
  | nil => exact absurd hf (List.not_mem_nil f)
  | cons a fs ih =>
    rw [List.nodup_cons] at hnd
    unfold countMissing
    rw [List.filter_cons, List.filter_cons]
    by_cases haf : a = f
    · rw [haf]
      rw [contains_eq_true_of_mem (List.mem_append_right vs (List.mem_singleton.mpr rfl)),
        contains_eq_false_of_not_mem hnvs]
      simp only [Bool.not_true, Bool.not_false, Bool.false_eq_true, if_false, if_true,
        List.length_cons]
      have hx := @countMissing_append_not_mem fs vs f (haf ▸ hnd.1)
      unfold countMissing at hx
      rw [hx]
    · have hffs : f ∈ fs := by
        rcases List.mem_cons.mp hf with h1 | h1
        · exact absurd h1.symm haf
        · exact h1
      have hca : (vs ++ [f]).contains a = vs.contains a := by
        by_cases hv : a ∈ vs
        · rw [contains_eq_true_of_mem hv,
            contains_eq_true_of_mem (List.mem_append_left [f] hv)]
        · rw [contains_eq_false_of_not_mem hv, contains_eq_false_of_not_mem ?_]
          intro hm
          rcases List.mem_append.mp hm with hm1 | hm1
          · exact hv hm1
          · exact haf (List.mem_singleton.mp hm1)
      have ihx := ih hffs hnd.2
      unfold countMissing at ihx
      rw [hca]
      cases hvc : vs.contains a
      · simp only [Bool.not_false, if_true, List.length_cons]
        omega
      · simp only [Bool.not_true, Bool.false_eq_true, if_false]
        exact ihx

theorem Reaches_trans {g : String → List String} {files : List String} {a b c : String}
    (h1 : Reaches g files a b) (h2 : Reaches g files b c) : Reaches g files a c := by
  induction h2 with
  | refl => exact h1
  | step hr hg hf ih => exact Reaches.step ih hg hf

/-! ### DFS correctness on reference-graph worlds -/

theorem impNode_decl (c : String) : nodeIsImportDeclaration (impNode c) = true := rfl

theorem impNode_not_expr (c : String) : nodeIsImportExpression (impNode c) = false := rfl

theorem impNode_not_req (c : String) : nodeIsRequireCall (impNode c) = false := rfl

theorem impNode_source (c : String) : nodeSourceValue (impNode c) = c := rfl

theorem mkOpts_eq_tOpts (cwd : String) (vs : List String) (d M : Int) :
    makeFindAllImportsOptions cwd vs d M = tOpts cwd vs (d + 1) M := rfl

theorem graph_validate (files : List String) (g : String → List String) {f : String}
    (cwd : String) (vs : List String) {d M : Int} (hf : f ∈ files) (hdM : d ≤ M) :
    validateFilePathAndOptions (graphWorld files g) (.str f) (tOpts cwd vs d M)
      = .valid f cwd vs d M ⟨some ⟨(g f).map impNode⟩⟩ := by
  rw [validate_tOpts]
  rw [if_neg (by omega)]
  have hc := contains_eq_true_of_mem hf
  simp only [graphWorld, hc, Bool.not_true, Bool.false_eq_true, if_false, if_true]

theorem graph_scan (files : List String) (g : String → List String)
    (k : Nat) (cwd : String) (d M : Int)
    (hIH : ∀ (f1 : String) (vs1 : List String), f1 ∈ files →
      (countMissing files vs1 : Int) ≤ M - (d + 1) →
      ∃ out, findAllImportsGo k (graphWorld files g) (.str f1) (tOpts cwd vs1 (d + 1) M)
          = (.success out, out)
        ∧ (∃ δ, out = vs1 ++ δ) ∧ f1 ∈ out
        ∧ (∀ x ∈ out, x ∉ vs1 → x ∈ files ∧ Reaches g files f1 x ∧
            ∀ c ∈ g x, c ∈ files → c ∈ out)) :
    ∀ (children : List String) (vs : List String),
    (countMissing files vs : Int) ≤ M - (d + 1) →
    ∃ out, scanStatements (fun fp1 opts1 => findAllImportsGo k (graphWorld files g) fp1 opts1)
        (graphWorld files g) ⟨"", cwd, d, M⟩ (children.map impNode) vs = (.success out, out)
      ∧ (∃ δ, out = vs ++ δ)
      ∧ (∀ c ∈ children, c ∈ files → c ∈ out)
      ∧ (∀ x ∈ out, x ∉ vs → x ∈ files ∧ (∃ c ∈ children, c ∈ files ∧ Reaches g files c x) ∧
          ∀ c1 ∈ g x, c1 ∈ files → c1 ∈ out) := by
  intro children
  induction children with
  | nil =>
    intro vs _
    refine ⟨vs, rfl, ext_refl vs, ?_, ?_⟩
    · intro c hc
      exact absurd hc (List.not_mem_nil c)
    · intro x hx hxvs
      exact absurd hx hxvs
  | cons c cs ih =>
    intro vs hbud
    by_cases hcf : c ∈ files
    · obtain ⟨out1, hgo, hext1, hcmem, hclo1⟩ := hIH c vs hcf hbud
      have heq : scanStatements
          (fun fp1 opts1 => findAllImportsGo k (graphWorld files g) fp1 opts1)
          (graphWorld files g) ⟨"", cwd, d, M⟩ ((c :: cs).map impNode) vs
          = scanStatements
            (fun fp1 opts1 => findAllImportsGo k (graphWorld files g) fp1 opts1)
            (graphWorld files g) ⟨"", cwd, d, M⟩ (cs.map impNode) out1 := by
        rw [List.map_cons]
        conv_lhs => unfold scanStatements
        unfold processImport
        simp only [impNode_decl, impNode_not_expr, impNode_not_req, if_true,
          Bool.false_eq_true, if_false, impNode_source]
        have hres : (graphWorld files g).resolveImportingPath
            (ProcessImportSettings.currentDir ⟨"", cwd, d, M⟩) c
            (ProcessImportSettings.cwd ⟨"", cwd, d, M⟩) = some c := by
          simp only [graphWorld, contains_eq_true_of_mem hcf, if_true]
        simp only [hres]
        rw [mkOpts_eq_tOpts, hgo, resBind_success, resBind_success, resBind_success]
      have hbud1 : (countMissing files out1 : Int) ≤ M - (d + 1) := by
        have hmono := countMissing_le_of_ext files hext1
        have : (countMissing files out1 : Int) ≤ (countMissing files vs : Int) := by
          exact_mod_cast hmono
        omega
      obtain ⟨out, hscan, hext2, hcsmem, hclo2⟩ := ih out1 hbud1
      refine ⟨out, by rw [heq, hscan], ext_trans hext1 hext2, ?_, ?_⟩
      · intro c1 hc1 hc1f
        rcases List.mem_cons.mp hc1 with rfl | hc1cs
        · exact mem_of_ext (hcmem) hext2
        · exact hcsmem c1 hc1cs hc1f
      · intro x hx hxvs
        by_cases hxout1 : x ∈ out1
        · obtain ⟨hxf, hreach, hchild⟩ := hclo1 x hxout1 hxvs
          refine ⟨hxf, ⟨c, List.mem_cons_self c cs, hcf, hreach⟩, ?_⟩
          intro c1 hc1 hc1f
          exact mem_of_ext (hchild c1 hc1 hc1f) hext2
        · obtain ⟨hxf, ⟨c1, hc1cs, hc1f, hreach⟩, hchild⟩ := hclo2 x hx hxout1
          exact ⟨hxf, ⟨c1, List.mem_cons_of_mem c hc1cs, hc1f, hreach⟩, hchild⟩
    · have heq : scanStatements
          (fun fp1 opts1 => findAllImportsGo k (graphWorld files g) fp1 opts1)
          (graphWorld files g) ⟨"", cwd, d, M⟩ ((c :: cs).map impNode) vs
          = scanStatements
            (fun fp1 opts1 => findAllImportsGo k (graphWorld files g) fp1 opts1)
            (graphWorld files g) ⟨"", cwd, d, M⟩ (cs.map impNode) vs := by
        rw [List.map_cons]
        conv_lhs => unfold scanStatements
        unfold processImport
        simp only [impNode_decl, impNode_not_expr, impNode_not_req, if_true,
          Bool.false_eq_true, if_false, impNode_source]
        have hres : (graphWorld files g).resolveImportingPath
            (ProcessImportSettings.currentDir ⟨"", cwd, d, M⟩) c
            (ProcessImportSettings.cwd ⟨"", cwd, d, M⟩) = none := by
          simp only [graphWorld, contains_eq_false_of_not_mem hcf, Bool.false_eq_true,
            if_false]
        simp only [hres]
        rw [resBind_success, resBind_success, resBind_success]
      obtain ⟨out, hscan, hext2, hcsmem, hclo2⟩ := ih vs hbud
      refine ⟨out, by rw [heq, hscan], hext2, ?_, ?_⟩
      · intro c1 hc1 hc1f
        rcases List.mem_cons.mp hc1 with rfl | hc1cs
        · exact absurd hc1f hcf
        · exact hcsmem c1 hc1cs hc1f
      · intro x hx hxvs
        obtain ⟨hxf, ⟨c1, hc1cs, hc1f, hreach⟩, hchild⟩ := hclo2 x hx hxvs
        exact ⟨hxf, ⟨c1, List.mem_cons_of_mem c hc1cs, hc1f, hreach⟩, hchild⟩

theorem setStrings_tOpts (cwd : String) (vs : List String) (d M : Int) :
    setStrings (tOpts cwd vs d M).visitedSet = vs := setStrings_map_str vs

theorem graph_go (files : List String) (g : String → List String) (hnd : files.Nodup) :
    ∀ (fuel : Nat) (f cwd : String) (vs : List String) (d M : Int),
    minFuel (tOpts cwd vs d M) ≤ fuel →
    f ∈ files → d ≤ M → (countMissing files vs : Int) ≤ M - d →
    ∃ out, findAllImportsGo fuel (graphWorld files g) (.str f) (tOpts cwd vs d M)
        = (.success out, out)
      ∧ (∃ δ, out = vs ++ δ) ∧ f ∈ out
      ∧ (∀ x ∈ out, x ∉ vs → x ∈ files ∧ Reaches g files f x ∧
          ∀ c ∈ g x, c ∈ files → c ∈ out) := by
  intro fuel
  induction fuel with
  | zero =>
    intro f cwd vs d M hf
    exact absurd hf (by have := minFuel_pos (tOpts cwd vs d M); omega)
  | succ k ih =>
    intro f cwd vs d M hf hfm hdM hbud
    have hval := graph_validate files g cwd vs hfm hdM
    unfold findAllImportsGo
    rw [hval, setStrings_tOpts]
    by_cases hvis : visitedSetHasPreviousVisit vs f = true
    · simp only [hvis, if_true]
      refine ⟨vs, rfl, ext_refl vs, ?_, ?_⟩
      · unfold visitedSetHasPreviousVisit at hvis
        exact mem_of_contains_eq_true hvis
      · intro x hx hxvs
        exact absurd hx hxvs
    · simp only [hvis, Bool.false_eq_true, if_false]
      have hnfvs : f ∉ vs := by
        unfold visitedSetHasPreviousVisit at hvis
        simp only [Bool.not_eq_true] at hvis
        intro hm
        rw [contains_eq_true_of_mem hm] at hvis
        exact Bool.noConfusion hvis
      have hupd : updateVisitedSet vs f = vs ++ [f] := by
        unfold updateVisitedSet
        rw [contains_eq_false_of_not_mem hnfvs]
        simp
      have hbud1 : (countMissing files (vs ++ [f]) : Int) ≤ M - (d + 1) := by
        have hins := countMissing_insert hfm hnfvs hnd
        omega
      have hIH : ∀ (f1 : String) (vs1 : List String), f1 ∈ files →
          (countMissing files vs1 : Int) ≤ M - (d + 1) →
          ∃ out, findAllImportsGo k (graphWorld files g) (.str f1)
              (tOpts cwd vs1 (d + 1) M) = (.success out, out)
            ∧ (∃ δ, out = vs1 ++ δ) ∧ f1 ∈ out
            ∧ (∀ x ∈ out, x ∉ vs1 → x ∈ files ∧ Reaches g files f1 x ∧
                ∀ c ∈ g x, c ∈ files → c ∈ out) := by
        intro f1 vs1 hf1 hbud2
        have hd1M : d + 1 ≤ M := by
          have : (0 : Int) ≤ (countMissing files vs1 : Int) := Int.ofNat_nonneg _
          omega
        have hkf : minFuel (tOpts cwd vs1 (d + 1) M) ≤ k := by
          unfold minFuel tOpts at hf ⊢
          simp only [JSVal.asInt] at hf ⊢
          omega
        exact ih f1 cwd vs1 (d + 1) M hkf hf1 hd1M hbud2
      obtain ⟨out, hscan, hext, hchmem, hclo⟩ :=
        graph_scan files g k cwd d M hIH (g f) (vs ++ [f]) hbud1
      refine ⟨out, ?_, ?_, ?_, ?_⟩
      · rw [hupd]
        exact hscan
      · obtain ⟨δ, hδ⟩ := hext
        exact ⟨[f] ++ δ, by rw [hδ, List.append_assoc]⟩
      · exact mem_of_ext (List.mem_append_right vs (List.mem_singleton.mpr rfl)) hext
      · intro x hx hxvs
        by_cases hxin : x ∈ vs ++ [f]
        · have hxf : x = f := by
            rcases List.mem_append.mp hxin with h1 | h1
            · exact absurd h1 hxvs
            · exact List.mem_singleton.mp h1
          subst hxf
          exact ⟨hfm, Reaches.refl x, fun c hc hcf => hchmem c hc hcf⟩
        · obtain ⟨hxfl, ⟨c, hcgf, hcf, hreach⟩, hchild⟩ := hclo x hx hxin
          refine ⟨hxfl, ?_, hchild⟩
          exact Reaches_trans (Reaches.step (Reaches.refl f) hcgf hcf) hreach

/-! ### Linear-chain lemmas -/

theorem findAllImportsGo_invalid {W : World} {fp : JSVal} {opts : FindAllImportsOptions}
    {E : List ErrObj} {fuel : Nat} (h1 : 1 ≤ fuel)
    (hv : validateFilePathAndOptions W fp opts = .invalid E) :
    findAllImportsGo fuel W fp opts = (.failure E, setStrings opts.visitedSet) := by
  cases fuel with
  | zero => exact absurd h1 (by omega)
  | succ k =>
    unfold findAllImportsGo
    rw [hv]

theorem scanStatements_single_decl_success
    (recur : JSVal → FindAllImportsOptions → FRes) (W : World)
    (s : ProcessImportSettings) {c r : String} {out1 : List String} (vs : List String)
    (hres : W.resolveImportingPath s.currentDir c s.cwd = some r)
    (hsucc : recur (.str r) (makeFindAllImportsOptions s.cwd vs s.depth s.maxDepth)
      = (.success out1, out1)) :
    scanStatements recur W s [impNode c] vs = (.success out1, out1) := by
  conv_lhs => unfold scanStatements
  unfold processImport
  simp only [impNode_decl, impNode_not_expr, impNode_not_req, if_true,
    Bool.false_eq_true, if_false, impNode_source, hres, hsucc, resBind_success,
    resBind_failure]
  rfl

theorem chainFile_length (i : Nat) : (chainFile i).length = i := by
  show (List.replicate i 'a').length = i
  exact List.length_replicate i 'a'

theorem chainFile_inj {i j : Nat} (h : chainFile i = chainFile j) : i = j := by
  have := congrArg String.length h
  rwa [chainFile_length, chainFile_length] at this

theorem chainFile_mem {i n : Nat} (h : i < n) : chainFile i ∈ chainFiles n := by
  unfold chainFiles
  exact List.mem_map_of_mem chainFile (List.mem_range.mpr h)

theorem chainFile_not_mem {i n : Nat} (h : ¬ i < n) : chainFile i ∉ chainFiles n := by
  unfold chainFiles
  intro hm
  obtain ⟨j, hj, hje⟩ := List.mem_map.mp hm
  exact h (chainFile_inj hje ▸ List.mem_range.mp hj)

theorem chainFiles_nodup (n : Nat) : (chainFiles n).Nodup := by
  unfold chainFiles
  exact (List.nodup_range n).map (fun i j h => chainFile_inj h)

theorem chainG_chainFile (n i : Nat) :
    chainG n (chainFile i) = if i + 1 < n then [chainFile (i + 1)] else [] := by
  unfold chainG
  rw [chainFile_length]

theorem chainSeg_cons {i k : Nat} (h : i < k) :
    chainSeg i k = chainFile i :: chainSeg (i + 1) k := by
  unfold chainSeg
  rw [show k - i = (k - (i + 1)) + 1 by omega, List.range'_succ, List.map_cons]

theorem chainSeg_single (i : Nat) : chainSeg i (i + 1) = [chainFile i] := by
  unfold chainSeg
  rw [show i + 1 - i = 1 by omega]
  rfl

theorem chainSeg_empty {i k : Nat} (h : k ≤ i) : chainSeg i k = [] := by
  unfold chainSeg
  rw [show k - i = 0 by omega]
  rfl

theorem chain_go (n : Nat) : ∀ (fuel i : Nat) (cwd : String) (vs : List String) (d M : Int),
    minFuel (tOpts cwd vs d M) ≤ fuel →
    i < n → d ≤ M →
    (∀ j, i ≤ j → j < n → chainFile j ∉ vs) →
    findAllImportsGo fuel (chainWorld n) (.str (chainFile i)) (tOpts cwd vs d M)
      = if (n : Int) - 1 - i ≤ M - d then
          (.success (vs ++ chainSeg i n), vs ++ chainSeg i n)
        else
          (.failure [⟨"error", maxDepthMsg M (chainFile (i + (M - d).toNat + 1))⟩],
           vs ++ chainSeg i (i + (M - d).toNat + 1)) := by
  intro fuel
  induction fuel with
  | zero =>
    intro i cwd vs d M hf _ _ _
    exact absurd hf (by have := minFuel_pos (tOpts cwd vs d M); omega)
  | succ k ih =>
    intro i cwd vs d M hf hin hdM hfresh
    have hval : validateFilePathAndOptions (chainWorld n) (.str (chainFile i))
        (tOpts cwd vs d M)
        = .valid (chainFile i) cwd vs d M ⟨some ⟨(chainG n (chainFile i)).map impNode⟩⟩ :=
      graph_validate (chainFiles n) (chainG n) cwd vs (chainFile_mem hin) hdM
    unfold findAllImportsGo
    rw [hval, setStrings_tOpts]
    have hnfvs : chainFile i ∉ vs := hfresh i (Nat.le_refl i) hin
    have hvis : visitedSetHasPreviousVisit vs (chainFile i) = false := by
      unfold visitedSetHasPreviousVisit
      exact contains_eq_false_of_not_mem hnfvs
    simp only [hvis, Bool.false_eq_true, if_false]
    have hupd : updateVisitedSet vs (chainFile i) = vs ++ [chainFile i] := by
      unfold updateVisitedSet
      rw [contains_eq_false_of_not_mem hnfvs]
      simp
    rw [hupd]
    rw [show astBody ⟨some ⟨(chainG n (chainFile i)).map impNode⟩⟩
      = (chainG n (chainFile i)).map impNode from rfl]
    rw [show makeProcessImportSettings (chainWorld n) (chainFile i) cwd d M
      = (⟨"", cwd, d, M⟩ : ProcessImportSettings) from rfl]
    rw [chainG_chainFile]
    by_cases hlast : i + 1 < n
    · rw [if_pos hlast]
      simp only [List.map_cons, List.map_nil]
      have hres : (chainWorld n).resolveImportingPath
          (ProcessImportSettings.currentDir ⟨"", cwd, d, M⟩) (chainFile (i + 1))
          (ProcessImportSettings.cwd ⟨"", cwd, d, M⟩) = some (chainFile (i + 1)) := by
        show (if (chainFiles n).contains (chainFile (i + 1)) then some (chainFile (i + 1))
          else none) = some (chainFile (i + 1))
        rw [contains_eq_true_of_mem (chainFile_mem hlast)]
        rfl
      by_cases hd1 : d + 1 ≤ M
      · have hfresh1 : ∀ j, i + 1 ≤ j → j < n → chainFile j ∉ vs ++ [chainFile i] := by
          intro j hj hjn hm
          rcases List.mem_append.mp hm with h1 | h1
          · exact hfresh j (by omega) hjn h1
          · exact absurd (chainFile_inj (List.mem_singleton.mp h1)) (by omega)
        have hkf : minFuel (tOpts cwd (vs ++ [chainFile i]) (d + 1) M) ≤ k := by
          unfold minFuel tOpts at hf ⊢
          simp only [JSVal.asInt] at hf ⊢
          omega
        have hrec := ih (i + 1) cwd (vs ++ [chainFile i]) (d + 1) M hkf hlast hd1 hfresh1
        push_cast at hrec
        by_cases hcond : (n : Int) - 1 - ((i : Int) + 1) ≤ M - (d + 1)
        · rw [if_pos hcond] at hrec
          rw [scanStatements_single_decl_success
            (fun fp1 opts1 => findAllImportsGo k (chainWorld n) fp1 opts1)
            (chainWorld n) ⟨"", cwd, d, M⟩ (vs ++ [chainFile i]) hres hrec]
          rw [if_pos (show (n : Int) - 1 - i ≤ M - d by omega)]
          rw [chainSeg_cons hin]
          simp
        · rw [if_neg hcond] at hrec
          rw [scanStatements_failfast_decl
            (fun fp1 opts1 => findAllImportsGo k (chainWorld n) fp1 opts1)
            (chainWorld n) ⟨"", cwd, d, M⟩ [] (impNode_decl (chainFile (i + 1))) hres hrec]
          rw [if_neg (show ¬((n : Int) - 1 - i ≤ M - d) by omega)]
          rw [show (i + 1) + (M - (d + 1)).toNat + 1 = i + (M - d).toNat + 1 by omega]
          rw [chainSeg_cons (show i < i + (M - d).toNat + 1 by omega)]
          simp
      · have hk1 : 1 ≤ k := by
          unfold minFuel tOpts at hf
          simp only [JSVal.asInt] at hf
          omega
        have hvchild : validateFilePathAndOptions (chainWorld n) (.str (chainFile (i + 1)))
            (tOpts cwd (vs ++ [chainFile i]) (d + 1) M)
            = .invalid [⟨"error", maxDepthMsg M (chainFile (i + 1))⟩] := by
          rw [validate_tOpts]
          rw [if_pos (by omega)]
        have hfail : findAllImportsGo k (chainWorld n) (.str (chainFile (i + 1)))
            (tOpts cwd (vs ++ [chainFile i]) (d + 1) M)
            = (.failure [⟨"error", maxDepthMsg M (chainFile (i + 1))⟩], vs ++ [chainFile i]) := by
          rw [findAllImportsGo_invalid hk1 hvchild, setStrings_tOpts]
        rw [scanStatements_failfast_decl
          (fun fp1 opts1 => findAllImportsGo k (chainWorld n) fp1 opts1)
          (chainWorld n) ⟨"", cwd, d, M⟩ [] (impNode_decl (chainFile (i + 1))) hres hfail]
        rw [if_neg (show ¬((n : Int) - 1 - i ≤ M - d) by omega)]
        rw [show i + (M - d).toNat + 1 = i + 1 by omega, chainSeg_single]
    · rw [if_neg hlast]
      rw [show (([] : List String).map impNode) = [] from rfl]
      rw [show scanStatements (fun fp1 opts1 => findAllImportsGo k (chainWorld n) fp1 opts1)
        (chainWorld n) ⟨"", cwd, d, M⟩ [] (vs ++ [chainFile i])
        = (.success (vs ++ [chainFile i]), vs ++ [chainFile i]) from rfl]
      rw [if_pos (show (n : Int) - 1 - i ≤ M - d by omega)]
      rw [show chainSeg i n = [chainFile i] from by
        rw [show n = i + 1 by omega]
        exact chainSeg_single i]

/-! ### Callback-engine lemmas -/

theorem cbBind_success {A : Type} (o : List String) (a : A) (st : CState A)
    (k : CState A → CRes A) : cbBind (.success o a, st) k = k st := rfl

theorem cbBind_failure {A : Type} (e : List ErrObj) (st : CState A)
    (k : CState A → CRes A) : cbBind (.failure e, st) k = (.failure e, st) := rfl

theorem cbBind_thrown {A : Type} (m : String) (st : CState A)
    (k : CState A → CRes A) : cbBind (.thrown m, st) k = (.thrown m, st) := rfl

theorem cbGo_invalid {A : Type} {W : World} {cfg : CallbackConfig A} {fp : JSVal}
    {opts : FindAllImportsOptions} {st : CState A} {E : List ErrObj} {fuel : Nat}
    (h1 : 1 ≤ fuel) (hv : validateFilePathAndOptions W fp opts = .invalid E) :
    findAllImportsWithCallbackGo fuel W cfg fp opts st = (.failure E, st) := by
  cases fuel with
  | zero => exact absurd h1 (by omega)
  | succ k =>
    unfold findAllImportsWithCallbackGo
    rw [hv]

theorem cext_refl {A : Type} (st : CState A) :
    ∃ δ, st.visited = st.visited ++ δ ∧ st.trace = st.trace ++ δ := ⟨[], by simp⟩

theorem cbBind_align {A : Type} {st0 : CState A} {r : CRes A} {k : CState A → CRes A}
    (hr : ∃ δ, r.2.visited = st0.visited ++ δ ∧ r.2.trace = st0.trace ++ δ)
    (hk : ∀ st1, (∃ δ, st1.visited = st0.visited ++ δ ∧ st1.trace = st0.trace ++ δ) →
      ∃ δ, (k st1).2.visited = st0.visited ++ δ ∧ (k st1).2.trace = st0.trace ++ δ) :
    ∃ δ, (cbBind r k).2.visited = st0.visited ++ δ ∧ (cbBind r k).2.trace = st0.trace ++ δ := by
  rcases r with ⟨o1, s1⟩
  cases o1 with
  | success o a => exact hk s1 hr
  | failure e => exact hr
  | thrown m => exact hr

theorem cext_trans {A : Type} {a b c : CState A}
    (hab : ∃ δ, b.visited = a.visited ++ δ ∧ b.trace = a.trace ++ δ)
    (hbc : ∃ δ, c.visited = b.visited ++ δ ∧ c.trace = b.trace ++ δ) :
    ∃ δ, c.visited = a.visited ++ δ ∧ c.trace = a.trace ++ δ := by
  obtain ⟨δ1, h1v, h1t⟩ := hab
  obtain ⟨δ2, h2v, h2t⟩ := hbc
  exact ⟨δ1 ++ δ2, by rw [h2v, h1v, List.append_assoc], by rw [h2t, h1t, List.append_assoc]⟩

theorem processImportWithCallback_align {A : Type}
    (recur : JSVal → FindAllImportsOptions → CState A → CRes A) (W : World)
    (s : ProcessImportSettings)
    (hrec : ∀ fp1 opts1 st1,
      ∃ δ, (recur fp1 opts1 st1).2.visited = st1.visited ++ δ ∧
        (recur fp1 opts1 st1).2.trace = st1.trace ++ δ)
    (p : String) (st : CState A) :
    ∃ δ, (processImportWithCallback recur W p s st).2.visited = st.visited ++ δ ∧
      (processImportWithCallback recur W p s st).2.trace = st.trace ++ δ := by
  unfold processImportWithCallback
  cases W.resolveImportingPath s.currentDir p s.cwd with
  | none => exact cext_refl st
  | some r => exact hrec (.str r) _ st

theorem scanStatementsWithCallback_align {A : Type}
    (recur : JSVal → FindAllImportsOptions → CState A → CRes A) (W : World)
    (s : ProcessImportSettings)
    (hrec : ∀ fp1 opts1 st1,
      ∃ δ, (recur fp1 opts1 st1).2.visited = st1.visited ++ δ ∧
        (recur fp1 opts1 st1).2.trace = st1.trace ++ δ) :
    ∀ (nodes : List ESNode) (st : CState A),
      ∃ δ, (scanStatementsWithCallback recur W s nodes st).2.visited = st.visited ++ δ ∧
        (scanStatementsWithCallback recur W s nodes st).2.trace = st.trace ++ δ := by
  intro nodes
  induction nodes with
  | nil => intro st; exact cext_refl st
  | cons node rest ih =>
    intro st
    unfold scanStatementsWithCallback
    refine cbBind_align ?_ (fun st1 h1 => ?_)
    · split
      · exact processImportWithCallback_align recur W s hrec _ st
      · exact cext_refl st
    refine cbBind_align (cext_trans h1 ?_) (fun st2 h2 => ?_)
    · split
      · exact cext_refl st1
      · exact cext_refl st1
    refine cbBind_align (cext_trans h2 ?_) (fun st3 h3 => ?_)
    · split
      · exact processImportWithCallback_align recur W s hrec _ st2
      · exact cext_refl st2
    exact cext_trans h3 (ih st3)

theorem findAllImportsWithCallbackGo_align {A : Type} : ∀ (fuel : Nat) (W : World)
    (cfg : CallbackConfig A) (fp : JSVal) (opts : FindAllImportsOptions) (st : CState A),
    ∃ δ, (findAllImportsWithCallbackGo fuel W cfg fp opts st).2.visited = st.visited ++ δ ∧
      (findAllImportsWithCallbackGo fuel W cfg fp opts st).2.trace = st.trace ++ δ := by
  intro fuel
  induction fuel with
  | zero => intro W cfg fp opts st; exact cext_refl st
  | succ k ih =>
    intro W cfg fp opts st
    unfold findAllImportsWithCallbackGo
    rcases hv : validateFilePathAndOptions W fp opts with E | ⟨fp1, cwd, vsD, d, M, sc⟩
    · exact cext_refl st
    · rcases hc : validateCallbackConfig cfg with E | cb
      · exact cext_refl st
      · by_cases hvis : visitedSetHasPreviousVisit st.visited fp1 = true
        · simp only [hvis, if_true]
          exact cext_refl st
        · simp only [hvis, Bool.false_eq_true, if_false]
          have hupd : updateVisitedSet st.visited fp1 = st.visited ++ [fp1] := by
            unfold updateVisitedSet
            unfold visitedSetHasPreviousVisit at hvis
            simp only [Bool.not_eq_true] at hvis
            rw [hvis]
            simp
          cases hcb : cb fp1 sc ({ st with visited := updateVisitedSet st.visited fp1 }).acc with
          | error e =>
            refine ⟨[fp1], ?_, ?_⟩ <;> simp [hupd]
          | ok acc1 =>
            refine cext_trans (b := { st with
                visited := updateVisitedSet st.visited fp1,
                acc := acc1,
                trace := st.trace ++ [fp1] }) ⟨[fp1], by simp [hupd], by simp⟩ ?_
            exact scanStatementsWithCallback_align _ W _ (fun fp2 opts2 st2 => ih W cfg fp2 opts2 st2) _ _

theorem validateCallbackConfig_invalid_classified {A : Type} {cfg : CallbackConfig A}
    {E : List ErrObj} (h : validateCallbackConfig cfg = .invalid E) :
    E ≠ [] ∧ ∀ e ∈ E, (classifyError e).isSome := by
  cases cfg with
  | notAnObject =>
    unfold validateCallbackConfig at h
    injection h with hE
    subst hE
    refine ⟨by simp [makeSuccessFalseTypeError], fun e he => ?_⟩
    simp only [makeSuccessFalseTypeError, List.mem_singleton] at he
    subst he
    decide
  | callbackNotAFunction =>
    unfold validateCallbackConfig at h
    injection h with hE
    subst hE
    refine ⟨by simp [makeSuccessFalseTypeError], fun e he => ?_⟩
    simp only [makeSuccessFalseTypeError, List.mem_singleton] at he
    subst he
    decide
  | valid cb => exact absurd h (by simp [validateCallbackConfig])

theorem processImportWithCallback_failure_classified {A : Type}
    (recur : JSVal → FindAllImportsOptions → CState A → CRes A) (W : World)
    (s : ProcessImportSettings)
    (hrec : ∀ (fp1 : JSVal) (vs1 : List String) (st1 : CState A) E st2,
      recur fp1 (makeFindAllImportsOptions s.cwd vs1 s.depth s.maxDepth) st1
        = (.failure E, st2) →
      E ≠ [] ∧ ∀ e ∈ E, (classifyError e).isSome)
    (p : String) (st : CState A) {E : List ErrObj} {st2 : CState A}
    (h : processImportWithCallback recur W p s st = (.failure E, st2)) :
    E ≠ [] ∧ ∀ e ∈ E, (classifyError e).isSome := by
  unfold processImportWithCallback at h
  cases hr : W.resolveImportingPath s.currentDir p s.cwd with
  | none => rw [hr] at h; exact absurd h (by simp)
  | some r => rw [hr] at h; exact hrec (.str r) st.visited st E st2 h

theorem scanStatementsWithCallback_failure_classified {A : Type}
    (recur : JSVal → FindAllImportsOptions → CState A → CRes A) (W : World)
    (s : ProcessImportSettings)
    (hrec : ∀ (fp1 : JSVal) (vs1 : List String) (st1 : CState A) E st2,
      recur fp1 (makeFindAllImportsOptions s.cwd vs1 s.depth s.maxDepth) st1
        = (.failure E, st2) →
      E ≠ [] ∧ ∀ e ∈ E, (classifyError e).isSome) :
    ∀ (nodes : List ESNode) (st : CState A) (E : List ErrObj) (st2 : CState A),
      scanStatementsWithCallback recur W s nodes st = (.failure E, st2) →
      E ≠ [] ∧ ∀ e ∈ E, (classifyError e).isSome := by
  intro nodes
  induction nodes with
  | nil => intro st E st2 h; exact absurd h (by simp [scanStatementsWithCallback])
  | cons node1 rest ih =>
    intro st E st2 h
    unfold scanStatementsWithCallback at h
    rcases hS1 : (if nodeIsImportDeclaration node1 then
        processImportWithCallback recur W (nodeSourceValue node1) s st
      else (.success st.visited st.acc, st)) with ⟨o1, s1⟩
    rw [hS1] at h
    cases o1 with
    | failure e =>
      rw [cbBind_failure] at h
      injection h with h1 h2
      injection h1 with h1
      subst h1
      by_cases hdecl : nodeIsImportDeclaration node1 = true
      · rw [if_pos hdecl] at hS1
        exact processImportWithCallback_failure_classified recur W s hrec _ st hS1
      · rw [if_neg hdecl] at hS1
        exact absurd hS1 (by simp)
    | thrown m => rw [cbBind_thrown] at h; exact absurd h (by simp)
    | success o1v a1 =>
    rw [cbBind_success] at h
    rcases hS2 : (if nodeIsImportExpression node1 then
        ((.thrown destructureErrorMsg, s1) : CRes A)
      else (.success s1.visited s1.acc, s1)) with ⟨o2, s2⟩
    rw [hS2] at h
    cases o2 with
    | failure e =>
      rw [cbBind_failure] at h
      injection h with h1 h2
      injection h1 with h1
      subst h1
      by_cases hexpr : nodeIsImportExpression node1 = true
      · rw [if_pos hexpr] at hS2
        exact absurd hS2 (by simp)
      · rw [if_neg hexpr] at hS2
        exact absurd hS2 (by simp)
    | thrown m => rw [cbBind_thrown] at h; exact absurd h (by simp)
    | success o2v a2 =>
    rw [cbBind_success] at h
    rcases hS3 : (if nodeIsRequireCall node1 then
        processImportWithCallback recur W (nodeRequireArgValue node1) s s2
      else (.success s2.visited s2.acc, s2)) with ⟨o3, s3⟩
    rw [hS3] at h
    cases o3 with
    | failure e =>
      rw [cbBind_failure] at h
      injection h with h1 h2
      injection h1 with h1
      subst h1
      by_cases hreq : nodeIsRequireCall node1 = true
      · rw [if_pos hreq] at hS3
        exact processImportWithCallback_failure_classified recur W s hrec _ s2 hS3
      · rw [if_neg hreq] at hS3
        exact absurd hS3 (by simp)
    | thrown m => rw [cbBind_thrown] at h; exact absurd h (by simp)
    | success o3v a3 =>
    rw [cbBind_success] at h
    exact ih s3 E st2 h

theorem findAllImportsWithCallbackGo_failure_classified {A : Type} : ∀ (fuel : Nat)
    (W : World) (cfg : CallbackConfig A) (fp : JSVal) (opts : FindAllImportsOptions)
    (st : CState A) (E : List ErrObj) (st2 : CState A),
    minFuel opts ≤ fuel →
    findAllImportsWithCallbackGo fuel W cfg fp opts st = (.failure E, st2) →
    E ≠ [] ∧ ∀ e ∈ E, (classifyError e).isSome := by
  intro fuel
  induction fuel with
  | zero =>
    intro W cfg fp opts st E st2 hf
    exact absurd hf (by have := minFuel_pos opts; omega)
  | succ k ih =>
    intro W cfg fp opts st E st2 hf h
    unfold findAllImportsWithCallbackGo at h
    rcases hv : validateFilePathAndOptions W fp opts with E1 | ⟨fp1, cwd, vsD, d, M, sc⟩
    · rw [hv] at h
      injection h with h1 h2
      injection h1 with h1
      subst h1
      exact validate_invalid_classified hv
    · rw [hv] at h
      obtain ⟨-, -, hd, hM, hdM, -, -, -, -⟩ := validate_valid_inv hv
      rcases hc : validateCallbackConfig cfg with E1 | cb
      · rw [hc] at h
        injection h with h1 h2
        injection h1 with h1
        subst h1
        exact validateCallbackConfig_invalid_classified hc
      · rw [hc] at h
        by_cases hvis : visitedSetHasPreviousVisit st.visited fp1 = true
        · simp only [hvis, if_true] at h
          exact absurd h (by simp)
        · simp only [hvis, Bool.false_eq_true, if_false] at h
          cases hcb : cb fp1 sc ({ st with visited := updateVisitedSet st.visited fp1 }).acc with
          | error e =>
            rw [hcb] at h
            injection h with h1 h2
            injection h1 with h1
            subst h1
            refine ⟨by simp [makeSuccessFalseTypeError], fun e1 he1 => ?_⟩
            simp only [makeSuccessFalseTypeError, List.mem_singleton] at he1
            subst he1
            simp [classify_callbackErrMsg]
          | ok acc1 =>
            rw [hcb] at h
            refine scanStatementsWithCallback_failure_classified _ W _ ?_ _ _ E st2 h
            intro fp2 vs1 st3 E2 st4 h2
            exact ih W cfg fp2 (makeFindAllImportsOptions cwd vs1 d M) st3 E2 st4
              (child_minFuel hd hM hdM hf cwd vs1) h2

/-! ### Claim theorems -/

/-- C2: for every reference graph — cyclic ones included — the traversal
terminates with a result whose shared visited ledger never contains
duplicates (each file appears exactly once no matter how many paths or
cycles reach it), and on the concrete cycle `a → b → c → a` the call
succeeds with ledger exactly `[a, b, c]`. -/
theorem c2_cycle_termination_dedup :
    (∀ (W : World) (fp : JSVal) (opts : FindAllImportsOptions),
      (setStrings opts.visitedSet).Nodup → ((findAllImports W fp opts).2).Nodup)
    ∧ findAllImports (graphWorld ["a", "b", "c"] cycleG) (.str "a")
        (defaultFindAllImportsOptions "")
      = (.success ["a", "b", "c"], ["a", "b", "c"]) := by
  constructor
  · intro W fp opts h
    exact findAllImportsGo_nodup (minFuel opts) W fp opts h
  · decide

/-- C2 witness: the dedup half applied to the concrete cyclic world. -/
theorem c2_witness :
    (setStrings (defaultFindAllImportsOptions "").visitedSet).Nodup ∧
    ((findAllImports (graphWorld ["a", "b", "c"] cycleG) (.str "a")
        (defaultFindAllImportsOptions "")).2).Nodup :=
  ⟨by decide, c2_cycle_termination_dedup.1 (graphWorld ["a", "b", "c"] cycleG)
    (.str "a") (defaultFindAllImportsOptions "") (by decide)⟩

/-- C3: with `maxDepth = N` and default depth 0, a linear chain of `N + 2`
files fails with the DepthExceeded error raised at file `N + 1` and
propagated unchanged to the original caller, while a chain of `N + 1` files
succeeds with the full chain as ledger; the error's message classifies as
`DepthExceeded`, and each recursive descent's options carry `depth + 1`. -/
theorem c3_depth_budget (N : Nat) (cwd : String) :
    (findAllImports (chainWorld (N + 2)) (.str (chainFile 0))
        (tOpts cwd [] 0 (N : Int))).1
      = .failure [⟨"error", maxDepthMsg (N : Int) (chainFile (N + 1))⟩]
    ∧ classifyError ⟨"error", maxDepthMsg (N : Int) (chainFile (N + 1))⟩
      = some .depthExceeded
    ∧ findAllImports (chainWorld (N + 1)) (.str (chainFile 0))
        (tOpts cwd [] 0 (N : Int))
      = (.success (chainSeg 0 (N + 1)), chainSeg 0 (N + 1))
    ∧ (∀ (cwd1 : String) (vs : List String) (d M : Int),
        (makeFindAllImportsOptions cwd1 vs d M).depth = .num (d + 1)) := by
  refine ⟨?_, classify_maxDepthMsg (N : Int) (chainFile (N + 1)), ?_, fun _ _ _ _ => rfl⟩
  · have h := chain_go (N + 2) (minFuel (tOpts cwd [] 0 (N : Int))) 0 cwd [] 0 (N : Int)
      (Nat.le_refl _) (by omega) (Int.ofNat_nonneg N)
      (fun j _ _ => List.not_mem_nil (chainFile j))
    rw [if_neg (by push_cast; omega)] at h
    show (findAllImportsGo (minFuel (tOpts cwd [] 0 (N : Int))) (chainWorld (N + 2))
      (.str (chainFile 0)) (tOpts cwd [] 0 (N : Int))).1 = _
    rw [h]
    rw [show 0 + ((N : Int) - 0).toNat + 1 = N + 1 by omega]
  · have h := chain_go (N + 1) (minFuel (tOpts cwd [] 0 (N : Int))) 0 cwd [] 0 (N : Int)
      (Nat.le_refl _) (by omega) (Int.ofNat_nonneg N)
      (fun j _ _ => List.not_mem_nil (chainFile j))
    rw [if_pos (by push_cast; omega)] at h
    show findAllImportsGo (minFuel (tOpts cwd [] 0 (N : Int))) (chainWorld (N + 1))
      (.str (chainFile 0)) (tOpts cwd [] 0 (N : Int)) = _
    rw [h, List.nil_append]

theorem countMissing_nil (files : List String) : countMissing files [] = files.length := by
  unfold countMissing
  induction files with
  | nil => rfl
  | cons a fs ih => simp [ih]

/-- C1 counterexample: the claim as stated is false — with default options
(`maxDepth = 100`), traversal of the acyclic linear chain of 102 files from
its root does not succeed; it fails with the DepthExceeded error. -/
theorem c1_counterexample :
    (findAllImports (chainWorld 102) (.str (chainFile 0))
        (defaultFindAllImportsOptions "")).1
      = .failure [⟨"error", maxDepthMsg 100 (chainFile 101)⟩] := by
  have h := chain_go 102 (minFuel (defaultFindAllImportsOptions "")) 0 "" [] 0 100
    (Nat.le_refl _) (by omega) (by omega)
    (fun j _ _ => List.not_mem_nil (chainFile j))
  rw [if_neg (by norm_num)] at h
  show (findAllImportsGo (minFuel (defaultFindAllImportsOptions "")) (chainWorld 102)
    (.str (chainFile 0)) (tOpts "" [] 0 100)).1 = _
  rw [h]
  rw [show 0 + ((100 : Int) - 0).toNat + 1 = 101 by omega]

/-- C1 (amended): for every reference graph — acyclic or not — and every
root, the traversal from an empty ledger succeeds as soon as `maxDepth` is
at least the number of files of the graph (with the default `maxDepth` of
100 this covers every graph of at most 100 files), and the returned ledger
is exactly the set of files transitively reachable from the root, without
duplicates, regardless of how many paths reach each file. -/
theorem c1_reachability_closure (files : List String) (g : String → List String)
    (cwd root : String) (M : Int) (hnd : files.Nodup) (hroot : root ∈ files)
    (hM : (files.length : Int) ≤ M) :
    ∃ out, findAllImports (graphWorld files g) (.str root) (tOpts cwd [] 0 M)
        = (.success out, out)
      ∧ out.Nodup ∧ ∀ x, x ∈ out ↔ Reaches g files root x := by
  have hlen : (1 : Int) ≤ (files.length : Int) := by
    have := List.length_pos_of_mem hroot
    omega
  have hbud : (countMissing files [] : Int) ≤ M - 0 := by
    rw [countMissing_nil]
    omega
  obtain ⟨out, hgo, hext, hmem, hclo⟩ := graph_go files g hnd
    (minFuel (tOpts cwd [] 0 M)) root cwd [] 0 M (Nat.le_refl _) hroot (by omega) hbud
  refine ⟨out, hgo, ?_, ?_⟩
  · have hx := findAllImportsGo_nodup (minFuel (tOpts cwd [] 0 M)) (graphWorld files g)
      (.str root) (tOpts cwd [] 0 M) (by rw [setStrings_tOpts]; exact List.nodup_nil)
    rw [hgo] at hx
    exact hx
  · intro x
    constructor
    · intro hx
      exact (hclo x hx (List.not_mem_nil x)).2.1
    · intro hr
      induction hr with
      | refl => exact hmem
      | step hr1 hg1 hf1 ih1 =>
        rename_i y1 z1
        exact (hclo y1 ih1 (List.not_mem_nil y1)).2.2 z1 hg1 hf1

/-- C1 witness: the diamond scenario — `a` imports `b` and `c`, `b` imports
`c` — run with the default depth budget succeeds and its ledger is exactly
the reachable set `{a, b, c}`, each file once. -/
theorem c1_witness :
    diamondFiles.Nodup ∧ "a" ∈ diamondFiles ∧ ((diamondFiles.length : Int) ≤ 100) ∧
    (∃ out, findAllImports (graphWorld diamondFiles diamondG) (.str "a")
        (tOpts "" [] 0 100) = (.success out, out)
      ∧ out.Nodup ∧ ∀ x, x ∈ out ↔ Reaches diamondG diamondFiles "a" x) :=
  ⟨by decide, by decide, by decide,
    c1_reachability_closure diamondFiles diamondG "" "a" 100 (by decide) (by decide)
      (by decide)⟩

/-- C4: the first import-like statement whose recursive processing returns a
failure makes the statement loop return that exact failure object — same
errors, same shared-set state — without scanning the remaining statements,
for each of the three import kinds; and end to end, a file `x` importing a
nonexistent `y` yields at the top level precisely the child's FileNotFound
failure, unchanged. -/
theorem c4_failfast :
    (∀ (recur : JSVal → FindAllImportsOptions → FRes) (W : World)
       (s : ProcessImportSettings) (node : ESNode) (rest : List ESNode)
       (vs : List String) (E : List ErrObj) (st : List String) (r : String),
      nodeIsImportDeclaration node = true →
      W.resolveImportingPath s.currentDir (nodeSourceValue node) s.cwd = some r →
      recur (.str r) (makeFindAllImportsOptions s.cwd vs s.depth s.maxDepth)
        = (.failure E, st) →
      scanStatements recur W s (node :: rest) vs = (.failure E, st))
    ∧ (∀ (recur : JSVal → FindAllImportsOptions → FRes) (W : World)
       (s : ProcessImportSettings) (node : ESNode) (rest : List ESNode)
       (vs : List String) (E : List ErrObj) (st : List String) (r : String),
      nodeIsImportExpression node = true →
      W.resolveImportingPath s.currentDir (nodeSourceValue node) s.cwd = some r →
      recur (.str r) (makeFindAllImportsOptions s.cwd vs s.depth s.maxDepth)
        = (.failure E, st) →
      scanStatements recur W s (node :: rest) vs = (.failure E, st))
    ∧ (∀ (recur : JSVal → FindAllImportsOptions → FRes) (W : World)
       (s : ProcessImportSettings) (node : ESNode) (rest : List ESNode)
       (vs : List String) (E : List ErrObj) (st : List String) (r : String),
      nodeIsRequireCall node = true →
      W.resolveImportingPath s.currentDir (nodeRequireArgValue node) s.cwd = some r →
      recur (.str r) (makeFindAllImportsOptions s.cwd vs s.depth s.maxDepth)
        = (.failure E, st) →
      scanStatements recur W s (node :: rest) vs = (.failure E, st))
    ∧ findAllImports failFastWorld (.str "x") (defaultFindAllImportsOptions "")
      = (.failure [⟨"error", fileNotFoundMsg "y"⟩], ["x"]) := by
  refine ⟨?_, ?_, ?_, by decide⟩
  · intro recur W s node rest vs E st r h1 h2 h3
    exact scanStatements_failfast_decl recur W s rest h1 h2 h3
  · intro recur W s node rest vs E st r h1 h2 h3
    exact scanStatements_failfast_expr recur W s rest h1 h2 h3
  · intro recur W s node rest vs E st r h1 h2 h3
    exact scanStatements_failfast_req recur W s rest h1 h2 h3

/-- C4 witness: the declarative-import case instantiated on the concrete
nonexistent-target world. -/
theorem c4_witness :
    nodeIsImportDeclaration (impNode "y") = true ∧
    failFastWorld.resolveImportingPath "" (nodeSourceValue (impNode "y")) "" = some "y" ∧
    (fun fp1 opts1 => findAllImports failFastWorld fp1 opts1) (.str "y")
        (makeFindAllImportsOptions "" ["x"] 0 100)
      = (.failure [⟨"error", fileNotFoundMsg "y"⟩], ["x"]) ∧
    scanStatements (fun fp1 opts1 => findAllImports failFastWorld fp1 opts1)
        failFastWorld ⟨"", "", 0, 100⟩ [impNode "y", reqNode "z"] ["x"]
      = (.failure [⟨"error", fileNotFoundMsg "y"⟩], ["x"]) :=
  ⟨by decide, by decide, by decide,
    c4_failfast.1 (fun fp1 opts1 => findAllImports failFastWorld fp1 opts1) failFastWorld
      ⟨"", "", 0, 100⟩ (impNode "y") [reqNode "z"] ["x"] _ ["x"] "y"
      (by decide) (by decide) (by decide)⟩

/-- C5: every Failure produced by any of the three entry points carries a
nonempty errors list, and each error's message identifies, via the fixed
text of its construction site, exactly one kind of the closed taxonomy. -/
theorem c5_failures_classified :
    (∀ (W : World) (fp : JSVal) (opts : FindAllImportsOptions) (E : List ErrObj)
       (st : List String), findAllImports W fp opts = (.failure E, st) →
      E ≠ [] ∧ ∀ e ∈ E, (classifyError e).isSome)
    ∧ (∀ (A : Type) (W : World) (fp : JSVal) (cfg : CallbackConfig A) (acc : A)
       (opts : FindAllImportsOptions) (E : List ErrObj) (st2 : CState A),
      findAllImportsWithCallbackSync W fp cfg acc opts = (.failure E, st2) →
      E ≠ [] ∧ ∀ e ∈ E, (classifyError e).isSome)
    ∧ (∀ (A : Type) (W : World) (fp : JSVal) (cfg : CallbackConfig A) (acc : A)
       (opts : FindAllImportsOptions) (E : List ErrObj) (st2 : CState A),
      findAllImportsWithCallbackAsync W fp cfg acc opts = (.failure E, st2) →
      E ≠ [] ∧ ∀ e ∈ E, (classifyError e).isSome) := by
  refine ⟨?_, ?_, ?_⟩
  · intro W fp opts E st h
    exact findAllImportsGo_failure_classified (minFuel opts) W fp opts E st
      (Nat.le_refl _) h
  · intro A W fp cfg acc opts E st2 h
    exact findAllImportsWithCallbackGo_failure_classified (minFuel opts) W cfg fp opts
      ⟨setStrings opts.visitedSet, acc, []⟩ E st2 (Nat.le_refl _) h
  · intro A W fp cfg acc opts E st2 h
    exact findAllImportsWithCallbackGo_failure_classified (minFuel opts) W cfg fp opts
      ⟨setStrings opts.visitedSet, acc, []⟩ E st2 (Nat.le_refl _) h

/-- C5 witness: a failing call (wrongly typed file path) applied to the
classification theorem. -/
theorem c5_witness :
    findAllImports failFastWorld (.num 0) (defaultFindAllImportsOptions "")
      = (.failure [⟨"error", "ERROR. filePath is supposed to be a string."⟩], []) ∧
    ([(⟨"error", "ERROR. filePath is supposed to be a string."⟩ : ErrObj)] ≠ [] ∧
      ∀ e ∈ [(⟨"error", "ERROR. filePath is supposed to be a string."⟩ : ErrObj)],
        (classifyError e).isSome) :=
  ⟨by decide, c5_failures_classified.1 failFastWorld (.num 0)
    (defaultFindAllImportsOptions "")
    [⟨"error", "ERROR. filePath is supposed to be a string."⟩] [] (by decide)⟩

theorem findAllImportsGo_expr_mem {fuel : Nat} {W : World} {f cwd : String}
    {vs : List String} {d M : Int} {out : List String} {sc : SourceCode}
    {node : ESNode} {r : String}
    (h : findAllImportsGo fuel W (.str f) (tOpts cwd vs d M) = (.success out, out))
    (hnvs : f ∉ vs) (hsc : W.getSourceCodeFromFilePath f = some sc)
    (hnode : node ∈ astBody sc) (hkind : nodeIsImportExpression node = true)
    (hres : W.resolveImportingPath (W.dirname f) (nodeSourceValue node) cwd = some r) :
    r ∈ out := by
  cases fuel with
  | zero => exact absurd h (by simp [findAllImportsGo])
  | succ k =>
    unfold findAllImportsGo at h
    rcases hv : validateFilePathAndOptions W (.str f) (tOpts cwd vs d M)
      with E | ⟨fp1, cwd1, vsD, d1, M1, sc1⟩
    · rw [hv] at h
      exact absurd h (by simp)
    · rw [hv] at h
      obtain ⟨hfp, hcwd, hdp, hMp, hdM1, hset, hex, hgets, hast⟩ := validate_valid_inv hv
      have hfp2 : f = fp1 := JSVal.str.inj hfp
      subst hfp2
      have hcwd2 : cwd = cwd1 := JSVal.str.inj (show JSVal.str cwd = .str cwd1 from hcwd)
      subst hcwd2
      have hd2 : d = d1 := JSVal.num.inj (show JSVal.num d = .num d1 from hdp)
      subst hd2
      have hM2 : M = M1 := JSVal.num.inj (show JSVal.num M = .num M1 from hMp)
      subst hM2
      have hsc2 : sc1 = sc := by
        rw [hgets] at hsc
        exact Option.some.inj hsc
      rw [← hsc2] at hnode
      rw [setStrings_tOpts] at h
      have hvis : visitedSetHasPreviousVisit vs f = false := by
        unfold visitedSetHasPreviousVisit
        exact contains_eq_false_of_not_mem hnvs
      simp only [hvis, Bool.false_eq_true, if_false] at h
      exact scanStatements_expr_mem
        (fun fp1 opts1 => findAllImportsGo k W fp1 opts1) W
        (makeProcessImportSettings W f cwd d M)
        (fun fp1' vs1 => by
          have hx := findAllImportsGo_state k W fp1'
            (makeFindAllImportsOptions cwd vs1 d M)
          rwa [show setStrings (makeFindAllImportsOptions cwd vs1 d M).visitedSet = vs1
            from setStrings_map_str vs1] at hx)
        (fun r1 vs1 out1 st1 h1 => findAllImportsGo_success_mem h1)
        (astBody sc1) (updateVisitedSet vs f) out out h node hnode hkind r hres

/-- C6: when a traversal succeeds on a freshly visited file whose top-level
statements include a dynamic import expression, and the path resolver
resolves that specifier against the file's containing directory, the
resolved file appears in the returned visited ledger just like declarative
imports and require calls. -/
theorem c6_dynamic_import_discovered :
    ∀ (W : World) (f cwd : String) (vs : List String) (d M : Int)
      (out : List String) (sc : SourceCode) (node : ESNode) (r : String),
    findAllImports W (.str f) (tOpts cwd vs d M) = (.success out, out) →
    f ∉ vs →
    W.getSourceCodeFromFilePath f = some sc →
    node ∈ astBody sc →
    nodeIsImportExpression node = true →
    W.resolveImportingPath (W.dirname f) (nodeSourceValue node) cwd = some r →
    r ∈ out := by
  intro W f cwd vs d M out sc node r h hnvs hsc hnode hkind hres
  exact findAllImportsGo_expr_mem h hnvs hsc hnode hkind hres

/-- C6 witness: the concrete dynamic-import world, where `x` dynamically
imports the existing file `m` and `m` ends up in the ledger. -/
theorem c6_witness :
    findAllImports dynOkWorld (.str "x") (tOpts "" [] 0 100)
      = (.success ["x", "m"], ["x", "m"]) ∧
    "x" ∉ ([] : List String) ∧
    dynOkWorld.getSourceCodeFromFilePath "x" = some ⟨some ⟨[impExprNode "m"]⟩⟩ ∧
    impExprNode "m" ∈ astBody ⟨some ⟨[impExprNode "m"]⟩⟩ ∧
    nodeIsImportExpression (impExprNode "m") = true ∧
    dynOkWorld.resolveImportingPath (dynOkWorld.dirname "x")
      (nodeSourceValue (impExprNode "m")) "" = some "m" ∧
    "m" ∈ ["x", "m"] :=
  ⟨by decide, by decide, by decide, by decide, by decide, by decide,
    c6_dynamic_import_discovered dynOkWorld "x" "" [] 0 100 ["x", "m"]
      ⟨some ⟨[impExprNode "m"]⟩⟩ (impExprNode "m") "m"
      (by decide) (by decide) (by decide) (by decide) (by decide) (by decide)⟩

/-- C7: in both callback variants, a top-level statement classified as a
dynamic import makes the call throw the parameter-destructuring `TypeError`
(the dynamic-import branch passes the settings object in the callback-config
slot and omits the third argument), so an uncaught exception escapes the
public boundary instead of a structured Result — contradicting the no-escape
claim; the plain variant is unaffected. -/
theorem c7_callback_dynamic_import_throws :
    findAllImportsWithCallbackSync dynImportWorld (.str "x") okCallbackUnit ()
        (defaultFindAllImportsOptions "")
      = (.thrown destructureErrorMsg, ⟨["x"], (), ["x"]⟩)
    ∧ findAllImportsWithCallbackAsync dynImportWorld (.str "x") okCallbackUnit ()
        (defaultFindAllImportsOptions "")
      = (.thrown destructureErrorMsg, ⟨["x"], (), ["x"]⟩) := by
  constructor <;> decide

/-- C8: when validation fails for any reason, all three entry points return
the failure immediately; the callback variants hand back exactly the caller's
visited ledger and accumulator (no element added, untouched) with an empty
callback trace (the per-file callback never ran), and the plain variant hands
back exactly the caller's visited ledger. -/
theorem c8_validation_failure_untouched :
    ∀ (A : Type) (W : World) (fp : JSVal) (cfg : CallbackConfig A) (acc : A)
      (opts : FindAllImportsOptions) (E : List ErrObj),
    validateFilePathAndOptions W fp opts = .invalid E →
    findAllImportsWithCallbackSync W fp cfg acc opts
      = (.failure E, ⟨setStrings opts.visitedSet, acc, []⟩) ∧
    findAllImportsWithCallbackAsync W fp cfg acc opts
      = (.failure E, ⟨setStrings opts.visitedSet, acc, []⟩) ∧
    findAllImports W fp opts = (.failure E, setStrings opts.visitedSet) := by
  intro A W fp cfg acc opts E hv
  refine ⟨?_, ?_, ?_⟩
  · unfold findAllImportsWithCallbackSync
    exact cbGo_invalid (minFuel_pos opts) hv
  · unfold findAllImportsWithCallbackAsync
    exact cbGo_invalid (minFuel_pos opts) hv
  · unfold findAllImports
    exact findAllImportsGo_invalid (minFuel_pos opts) hv

/-- C8 witness: a call whose depth 5 exceeds its maxDepth 1, so validation
fails with the max-depth error and every entry point leaves the state
untouched. -/
theorem c8_witness :
    validateFilePathAndOptions failFastWorld (.str "x") (tOpts "" [] 5 1)
      = .invalid [⟨"error", maxDepthMsg 1 "x"⟩] ∧
    (findAllImportsWithCallbackSync failFastWorld (.str "x") okCallbackUnit ()
        (tOpts "" [] 5 1)
      = (.failure [⟨"error", maxDepthMsg 1 "x"⟩],
          ⟨setStrings (tOpts "" [] 5 1).visitedSet, (), []⟩) ∧
      findAllImportsWithCallbackAsync failFastWorld (.str "x") okCallbackUnit ()
        (tOpts "" [] 5 1)
      = (.failure [⟨"error", maxDepthMsg 1 "x"⟩],
          ⟨setStrings (tOpts "" [] 5 1).visitedSet, (), []⟩) ∧
      findAllImports failFastWorld (.str "x") (tOpts "" [] 5 1)
      = (.failure [⟨"error", maxDepthMsg 1 "x"⟩], setStrings (tOpts "" [] 5 1).visitedSet)) :=
  ⟨by decide, c8_validation_failure_untouched Unit failFastWorld (.str "x")
    okCallbackUnit () (tOpts "" [] 5 1) [⟨"error", maxDepthMsg 1 "x"⟩] (by decide)⟩

/-- C9: in both callback variants the final visited ledger is always the
caller's ledger followed exactly by the callback-invocation trace — each file
is inserted into the ledger at the moment its callback runs, before any
recursion into its children; and in the concrete abort scenario (`r` imports
`s` and `t`, callback throws on `s`) the call fails with the CallbackFailure
message, `s` is in the returned ledger, and `t` was neither visited nor had
its callback invoked. -/
theorem c9_visited_before_callback :
    (∀ (A : Type) (W : World) (fp : JSVal) (cfg : CallbackConfig A) (acc : A)
       (opts : FindAllImportsOptions),
      (findAllImportsWithCallbackSync W fp cfg acc opts).2.visited
        = setStrings opts.visitedSet
            ++ (findAllImportsWithCallbackSync W fp cfg acc opts).2.trace ∧
      (findAllImportsWithCallbackAsync W fp cfg acc opts).2.visited
        = setStrings opts.visitedSet
            ++ (findAllImportsWithCallbackAsync W fp cfg acc opts).2.trace) ∧
    findAllImportsWithCallbackSync cbAbortWorld (.str "r") throwOnS []
        (defaultFindAllImportsOptions "")
      = (.failure [⟨"error", callbackErrMsg "s" "boom"⟩],
          ⟨["r", "s"], ["r"], ["r", "s"]⟩) ∧
    findAllImportsWithCallbackAsync cbAbortWorld (.str "r") throwOnS []
        (defaultFindAllImportsOptions "")
      = (.failure [⟨"error", callbackErrMsg "s" "boom"⟩],
          ⟨["r", "s"], ["r"], ["r", "s"]⟩) := by
  refine ⟨fun A W fp cfg acc opts => ⟨?_, ?_⟩, by decide, by decide⟩
  · obtain ⟨δ, h1, h2⟩ := findAllImportsWithCallbackGo_align (minFuel opts) W cfg fp opts
      ⟨setStrings opts.visitedSet, acc, []⟩
    unfold findAllImportsWithCallbackSync
    rw [h1, h2]
    simp
  · obtain ⟨δ, h1, h2⟩ := findAllImportsWithCallbackGo_align (minFuel opts) W cfg fp opts
      ⟨setStrings opts.visitedSet, acc, []⟩
    unfold findAllImportsWithCallbackAsync
    rw [h1, h2]
    simp

/-- C10: even when the file path is already in the caller's visited ledger,
validation — including the filesystem existence check and the source
re-parse — runs before the short-circuit check, so a previously visited file
that no longer exists yields a FileNotFound failure and one that no longer
parses yields a ParseFailure failure, never the short-circuit success. -/
theorem c10_revalidate_before_shortcircuit :
    ∀ (W : World) (f cwd : String) (vs : List String) (d M : Int),
    f ∈ vs → d ≤ M →
    (W.existsSync f = false →
      findAllImports W (.str f) (tOpts cwd vs d M)
        = (.failure [⟨"error", fileNotFoundMsg f⟩], vs)) ∧
    (W.existsSync f = true → W.getSourceCodeFromFilePath f = none →
      findAllImports W (.str f) (tOpts cwd vs d M)
        = (.failure [⟨"error", parseFailMsg f⟩], vs)) := by
  intro W f cwd vs d M hmem hdM
  have hnotgt : ¬ d > M := by omega
  constructor
  · intro hex
    have hv : validateFilePathAndOptions W (.str f) (tOpts cwd vs d M)
        = .invalid [⟨"error", fileNotFoundMsg f⟩] := by
      rw [validate_tOpts]
      simp [hnotgt, hex]
    have hr := findAllImportsGo_invalid (minFuel_pos (tOpts cwd vs d M)) hv
    rw [setStrings_tOpts] at hr
    exact hr
  · intro hex hget
    have hv : validateFilePathAndOptions W (.str f) (tOpts cwd vs d M)
        = .invalid [⟨"error", parseFailMsg f⟩] := by
      rw [validate_tOpts]
      simp [hnotgt, hex, hget]
    have hr := findAllImportsGo_invalid (minFuel_pos (tOpts cwd vs d M)) hv
    rw [setStrings_tOpts] at hr
    exact hr

/-- C10 witness: `y` does not exist in the fail-fast world, yet sits in the
caller's visited ledger; the call fails with FileNotFound instead of
short-circuiting. -/
theorem c10_witness :
    ("y" ∈ ["y"] ∧ (0 : Int) ≤ 100 ∧ failFastWorld.existsSync "y" = false) ∧
    findAllImports failFastWorld (.str "y") (tOpts "" ["y"] 0 100)
      = (.failure [⟨"error", fileNotFoundMsg "y"⟩], ["y"]) :=
  ⟨⟨by decide, by decide, by decide⟩,
    (c10_revalidate_before_shortcircuit failFastWorld "y" "" ["y"] 0 100
      (by decide) (by decide)).1 (by decide)⟩
